import Mathlib

/-!
Verification of `appscale/tools/admin_api/handler.py` (the `Handler` class:
an Admin API UrlMap resource).  The Python module is shallowly embedded:

* `Value` models the Python values that can appear in a parsed `app.yaml`
  handler section (strings, ints, bools, `None`, and dicts).  Python dicts
  are modelled as insertion-ordered association lists (`ValueDict`); keys
  need not be strings.
* `expirationOk` models `re.compile(EXPIRATION_RE).match` where
  `EXPIRATION_RE = r'^\s*(([0-9]+)([DdHhMm]|[sS]?))(\s+([0-9]+)([DdHhMm]|[sS]?))*\s*$'`
  (after inlining `DELTA_REGEX`).
* `from_yaml` models `Handler.from_yaml`: the missing-`url` check, the
  unrecognized-field check, the per-field predicate loop over `FIELD_RULES`
  (in source order), and the cross-field checks, raising
  `AppEngineConfigException` (modelled by `ConfigErr`) on violations.
  `re.compile(EXPIRATION_RE).match` applied to a non-string value raises a
  Python `TypeError`; this is modelled by `PyErr.typeError`.
* `to_api_dict` models `Handler.to_api_dict`, with Python dict assignment
  `d[k] = v` modelled by `ValueDict.insert` (replace in place if the key
  exists, append otherwise, matching insertion-ordered Python dicts).
-/

mutual

/-- A Python value as it can occur in a parsed yaml handler section:
strings, integers, booleans, `None`, and dictionaries. -/
inductive Value where
  | str : String → Value
  | int : Int → Value
  | bool : Bool → Value
  | null : Value
  | dict : ValueDict → Value

/-- A Python dict as an insertion-ordered association list with `Value`
keys and values. -/
inductive ValueDict where
  | nil : ValueDict
  | cons : Value → Value → ValueDict → ValueDict

end

mutual

/-- Structural equality on `Value` (Python `==` on these values). -/
def Value.beq : Value → Value → Bool
  | .str a, .str b => a == b
  | .int a, .int b => a == b
  | .bool a, .bool b => a == b
  | .null, .null => true
  | .dict d, .dict e => ValueDict.beq d e
  | _, _ => false

/-- Structural equality on `ValueDict`. -/
def ValueDict.beq : ValueDict → ValueDict → Bool
  | .nil, .nil => true
  | .cons k v r, .cons k' v' r' =>
    Value.beq k k' && Value.beq v v' && ValueDict.beq r r'
  | _, _ => false

end

mutual

theorem Value.beq_iff : ∀ a b : Value, Value.beq a b = true ↔ a = b
  | .str a, .str b => by simp [Value.beq]
  | .str a, .int b => by simp [Value.beq]
  | .str a, .bool b => by simp [Value.beq]
  | .str a, .null => by simp [Value.beq]
  | .str a, .dict e => by simp [Value.beq]
  | .int a, .str b => by simp [Value.beq]
  | .int a, .int b => by simp [Value.beq]
  | .int a, .bool b => by simp [Value.beq]
  | .int a, .null => by simp [Value.beq]
  | .int a, .dict e => by simp [Value.beq]
  | .bool a, .str b => by simp [Value.beq]
  | .bool a, .int b => by simp [Value.beq]
  | .bool a, .bool b => by simp [Value.beq]
  | .bool a, .null => by simp [Value.beq]
  | .bool a, .dict e => by simp [Value.beq]
  | .null, .str b => by simp [Value.beq]
  | .null, .int b => by simp [Value.beq]
  | .null, .bool b => by simp [Value.beq]
  | .null, .null => by simp [Value.beq]
  | .null, .dict e => by simp [Value.beq]
  | .dict d, .str b => by simp [Value.beq]
  | .dict d, .int b => by simp [Value.beq]
  | .dict d, .bool b => by simp [Value.beq]
  | .dict d, .null => by simp [Value.beq]
  | .dict d, .dict e => by
      simp only [Value.beq]
      rw [ValueDict.beq_iff_dict d e]
      constructor
      · intro h; rw [h]
      · intro h; cases h; rfl

theorem ValueDict.beq_iff_dict : ∀ d e : ValueDict, ValueDict.beq d e = true ↔ d = e
  | .nil, .nil => by simp [ValueDict.beq]
  | .nil, .cons k v r => by simp [ValueDict.beq]
  | .cons k v r, .nil => by simp [ValueDict.beq]
  | .cons k v r, .cons k' v' r' => by
      simp only [ValueDict.beq, Bool.and_eq_true]
      rw [Value.beq_iff k k', Value.beq_iff v v', ValueDict.beq_iff_dict r r']
      constructor
      · rintro ⟨⟨h1, h2⟩, h3⟩; rw [h1, h2, h3]
      · intro h; cases h; exact ⟨⟨rfl, rfl⟩, rfl⟩

end

instance : DecidableEq Value := fun a b => decidable_of_iff _ (Value.beq_iff a b)

instance : DecidableEq ValueDict := fun a b => decidable_of_iff _ (ValueDict.beq_iff_dict a b)

/-- A raw handler mapping (`yaml_entry` in the source): a Python dict with
string keys, as handed to `Handler.from_yaml` by the yaml parser. -/
abbrev RawMap := List (String × Value)

/-- First-match association-list lookup; models Python `d[k]` / `d.get(k)`
(`none` models a missing key / `KeyError`). -/
def alookup {α β : Type} [DecidableEq α] : List (α × β) → α → Option β
  | [], _ => none
  | (k, v) :: rest, k' => if k = k' then some v else alookup rest k'

/-- Lookup in a `ValueDict`; models Python `d[k]` for dict-typed values. -/
def ValueDict.lookup : ValueDict → Value → Option Value
  | .nil, _ => none
  | .cons k v rest, k' => if k = k' then some v else rest.lookup k'

/-- Models Python dict assignment `d[k] = v` on a `ValueDict`: if the key is
present its value is replaced in place (keeping its position), otherwise the
pair is appended, matching insertion-ordered Python dicts. -/
def ValueDict.insert : ValueDict → Value → Value → ValueDict
  | .nil, k, v => .cons k v .nil
  | .cons k' v' rest, k, v =>
    if k' = k then .cons k v rest else .cons k' v' (rest.insert k v)

theorem ValueDict.lookup_insert_self :
    ∀ (d : ValueDict) (k v : Value), (d.insert k v).lookup k = some v
  | .nil, k, v => by simp [ValueDict.insert, ValueDict.lookup]
  | .cons k' v' rest, k, v => by
    by_cases hk : k' = k
    · subst hk
      simp [ValueDict.insert, ValueDict.lookup]
    · simp [ValueDict.insert, ValueDict.lookup, hk,
        ValueDict.lookup_insert_self rest k v]

theorem ValueDict.lookup_insert_ne :
    ∀ (d : ValueDict) (k k' v : Value), k' ≠ k →
      (d.insert k' v).lookup k = d.lookup k
  | .nil, k, k', v => fun hne => by
    simp [ValueDict.insert, ValueDict.lookup, hne]
  | .cons k'' v'' rest, k, k', v => fun hne => by
    by_cases hk : k'' = k'
    · subst hk
      simp [ValueDict.insert, ValueDict.lookup, hne]
    · simp only [ValueDict.insert, if_neg hk]
      by_cases hk2 : k'' = k
      · simp [ValueDict.lookup, hk2]
      · simp [ValueDict.lookup, hk2,
          ValueDict.lookup_insert_ne rest k k' v hne]

/-! ## The expiration regular expression

`EXPIRATION_RE` is anchored on both sides, so `re.match` succeeds exactly on
the strings in its language (`$` also matches just before a trailing newline,
but a trailing newline is itself `\s`, absorbed by the final `\s*`, so the
language is unchanged).  The regex is translated into a recursive-descent
recogniser: `\s*`, then one delta term `([0-9]+)([DdHhMm]|[sS]?)`, then
`(\s+ <delta>)*\s*`.  All quantifiers can be taken greedily without
backtracking: digits, unit characters and whitespace are pairwise disjoint
character classes, and a delta term is always followed by whitespace or the
end of the string. -/

/-- Python `re` whitespace (`\s`) for text patterns: the CPython unicode
whitespace set, given by code point. -/
def pySpace (c : Char) : Bool :=
  let n := c.toNat
  (9 ≤ n && n ≤ 13) || (28 ≤ n && n ≤ 32) || n == 133 || n == 160 ||
    n == 5760 || (8192 ≤ n && n ≤ 8202) || n == 8232 || n == 8233 ||
    n == 8239 || n == 8287 || n == 12288

/-- The regex character class `[0-9]` (ASCII digits only). -/
def isDigitChar (c : Char) : Bool :=
  let n := c.toNat
  48 ≤ n && n ≤ 57

/-- A delta unit character: `[DdHhMm]` or `[sS]` from `DELTA_REGEX`. -/
def isUnitChar (c : Char) : Bool :=
  c == 'D' || c == 'd' || c == 'H' || c == 'h' || c == 'M' || c == 'm' ||
    c == 's' || c == 'S'

/-- Consume `\s*`. -/
def dropWs (cs : List Char) : List Char := cs.dropWhile pySpace

/-- Consume one delta term `([0-9]+)([DdHhMm]|[sS]?)`; returns the remaining
input, or `none` if no term starts here. -/
def parseDelta : List Char → Option (List Char)
  | [] => none
  | c :: rest =>
    if isDigitChar c then
      match rest.dropWhile isDigitChar with
      | [] => some []
      | u :: rest' => if isUnitChar u then some rest' else some (u :: rest')
    else none

/-- Consume `(\s+ <delta>)*\s*` to the end of the input.  The `fuel`
argument is only a structural-recursion bound; every call site supplies
`fuel ≥` the length of the input, which is enough because each loop
iteration consumes at least one character. -/
def deltaTailF : Nat → List Char → Bool
  | _, [] => true
  | 0, _ :: _ => false
  | fuel + 1, c :: rest =>
    if pySpace c then
      match dropWs rest with
      | [] => true
      | d :: ds =>
        match parseDelta (d :: ds) with
        | some r => deltaTailF fuel r
        | none => false
    else false

/-- Models `re.compile(EXPIRATION_RE).match(s)` returning a truthy match:
`\s*`, one delta term, then `(\s+ <delta>)*\s*$`. -/
def expirationOk (s : String) : Bool :=
  match parseDelta (dropWs s.data) with
  | some r => deltaTailF r.length r
  | none => false

/-! ## The Handler record and `from_yaml` -/

/-- The `Handler` object: `url` is set by the constructor, every other
attribute starts out as `None` (`Value.null`) and is only assigned by the
`setattr` in the validation loop of `from_yaml`. -/
structure Handler where
  url : Value
  application_readable : Value
  auth_fail_action : Value
  expiration : Value
  http_headers : Value
  login : Value
  mime_type : Value
  redirect_http_response_code : Value
  script : Value
  secure : Value
  static_dir : Value
  static_files : Value
  upload : Value
deriving DecidableEq

/-- `Handler.__init__`: stores `url` and sets every other attribute to
`None`. -/
def initHandler (url : Value) : Handler :=
  { url := url
    application_readable := .null
    auth_fail_action := .null
    expiration := .null
    http_headers := .null
    login := .null
    mime_type := .null
    redirect_http_response_code := .null
    script := .null
    secure := .null
    static_dir := .null
    static_files := .null
    upload := .null }

/-- The `static_defined` property:
`self.static_dir is not None or self.static_files is not None`. -/
def static_defined (h : Handler) : Bool :=
  decide (h.static_dir ≠ .null) || decide (h.static_files ≠ .null)

/-- Python `getattr(handler, field)` for the recognized field names (the
only names the source ever passes). -/
def getAttr (h : Handler) : String → Value
  | "url" => h.url
  | "application_readable" => h.application_readable
  | "auth_fail_action" => h.auth_fail_action
  | "expiration" => h.expiration
  | "http_headers" => h.http_headers
  | "login" => h.login
  | "mime_type" => h.mime_type
  | "redirect_http_response_code" => h.redirect_http_response_code
  | "script" => h.script
  | "secure" => h.secure
  | "static_dir" => h.static_dir
  | "static_files" => h.static_files
  | "upload" => h.upload
  | _ => .null

/-- Python `setattr(handler, field, value)` for the recognized field
names. -/
def setField (f : String) (h : Handler) (v : Value) : Handler :=
  match f with
  | "url" => { h with url := v }
  | "application_readable" => { h with application_readable := v }
  | "auth_fail_action" => { h with auth_fail_action := v }
  | "expiration" => { h with expiration := v }
  | "http_headers" => { h with http_headers := v }
  | "login" => { h with login := v }
  | "mime_type" => { h with mime_type := v }
  | "redirect_http_response_code" => { h with redirect_http_response_code := v }
  | "script" => { h with script := v }
  | "secure" => { h with secure := v }
  | "static_dir" => { h with static_dir := v }
  | "static_files" => { h with static_files := v }
  | "upload" => { h with upload := v }
  | _ => h

/-- The keys of `Handler.FIELD_RULES`, in source (dict-literal) order. -/
def FIELD_ORDER : List String :=
  ["application_readable", "auth_fail_action", "expiration", "http_headers",
   "login", "mime_type", "redirect_http_response_code", "script", "secure",
   "static_dir", "static_files", "upload", "url"]

/-- `True` for Python values satisfying `isinstance(val, str)`. -/
def isStr : Value → Bool
  | .str _ => true
  | _ => false

/-- `True` for Python values satisfying `isinstance(val, bool)`. -/
def isBool : Value → Bool
  | .bool _ => true
  | _ => false

/-- `True` for Python values satisfying `isinstance(val, dict)`. -/
def isDict : Value → Bool
  | .dict _ => true
  | _ => false

/-- The validation predicate of `Handler.FIELD_RULES` for each recognized
field.  `some b` is the boolean verdict of the Python lambda; `none` models
the `TypeError` raised by `re.compile(EXPIRATION_RE).match` when the
`expiration` value is not a string (all other predicates are total).  The
catch-all arm is never consulted: `from_yaml` only applies rules to the
names in `FIELD_ORDER`. -/
def fieldRule : String → Value → Option Bool
  | "application_readable", v => some (isBool v)
  | "auth_fail_action", v =>
    some (decide (v = .str "redirect" ∨ v = .str "unauthorized"))
  | "expiration", v =>
    match v with
    | .str s => some (expirationOk s)
    | _ => none
  | "http_headers", v => some (isDict v)
  | "login", v =>
    some (decide (v = .str "optional" ∨ v = .str "required" ∨ v = .str "admin"))
  | "mime_type", v => some (isStr v)
  | "redirect_http_response_code", v =>
    some (decide (v = .int 301 ∨ v = .int 302 ∨ v = .int 303 ∨ v = .int 307))
  | "script", v => some (isStr v)
  | "secure", v =>
    some (decide (v = .str "optional" ∨ v = .str "never" ∨ v = .str "always"))
  | "static_dir", v => some (isStr v)
  | "static_files", v => some (isStr v)
  | "upload", v => some (isStr v)
  | "url", v => some (isStr v)
  | _, _ => some false

/-- The error raised by `from_yaml` (an `AppEngineConfigException`),
identified by which check failed; message text is not modelled. -/
inductive ConfigErr where
  | missingUrl : ConfigErr
  | unrecognizedField : String → ConfigErr
  | invalidValue : String → ConfigErr
  | scriptAndStatic : ConfigErr
  | neitherScriptNorStatic : ConfigErr
  | bothStaticDirAndFiles : ConfigErr
deriving DecidableEq

/-- An exception escaping `from_yaml`: either the `AppEngineConfigException`
the source raises deliberately, or the `TypeError` from applying the
compiled expiration regex to a non-string. -/
inductive PyErr where
  | config : ConfigErr → PyErr
  | typeError : PyErr
deriving DecidableEq

deriving instance DecidableEq for Except

/-- One iteration of the `for field, rule in cls.FIELD_RULES.items()` loop,
without the `setattr`: `value = yaml_entry.get(field)`; a missing key or a
`None` value is skipped (`.ok none`); otherwise the rule is applied, and
`.ok (some v)` means the value passed and is to be assigned. -/
def checkRule (raw : RawMap) (f : String) : Except PyErr (Option Value) :=
  match alookup raw f with
  | none => .ok none
  | some v =>
    if v = .null then .ok none
    else
      match fieldRule f v with
      | none => .error .typeError
      | some false => .error (.config (.invalidValue f))
      | some true => .ok (some v)

/-- The `for field, rule in cls.FIELD_RULES.items()` loop: validates each
field of `raw` in table order and performs the `setattr` for present,
non-`None`, valid values. -/
def applyFields (raw : RawMap) : List String → Handler → Except PyErr Handler
  | [], h => .ok h
  | f :: rest, h =>
    match checkRule raw f with
    | .error e => .error e
    | .ok none => applyFields raw rest h
    | .ok (some v) => applyFields raw rest (setField f h v)

/-- The `for field in yaml_entry` loop: the first key of `raw` that is not
in `FIELD_RULES`, if any. -/
def firstUnknown (raw : RawMap) : Option String :=
  (raw.map Prod.fst).find? (fun f => !(FIELD_ORDER.contains f))

/-- `Handler.from_yaml`: missing-`url` check (key presence only), handler
construction, unrecognized-field check, per-field validation loop, then the
three cross-field checks, in source order. -/
def from_yaml (raw : RawMap) : Except PyErr Handler :=
  match alookup raw "url" with
  | none => .error (.config .missingUrl)
  | some url =>
    match firstUnknown raw with
    | some f => .error (.config (.unrecognizedField f))
    | none =>
      match applyFields raw FIELD_ORDER (initHandler url) with
      | .error e => .error e
      | .ok h =>
        if decide (h.script ≠ .null) && static_defined h then
          .error (.config .scriptAndStatic)
        else if decide (h.script = .null) && !static_defined h then
          .error (.config .neitherScriptNorStatic)
        else if static_defined h && decide (h.static_dir ≠ .null) &&
            decide (h.static_files ≠ .null) then
          .error (.config .bothStaticDirAndFiles)
        else .ok h

/-! ## `to_api_dict` -/

/-- Python truthiness (`if self.static_dir:`) for the modelled values. -/
def truthy : Value → Bool
  | .str s => decide (s ≠ "")
  | .int n => decide (n ≠ 0)
  | .bool b => b
  | .null => false
  | .dict d => decide (d ≠ .nil)

/-- `Handler.API_FIELDS`, in source (dict-literal) order: attribute name to
Admin API field name. -/
def API_FIELDS : List (String × String) :=
  [("secure", "securityLevel"), ("login", "login"),
   ("auth_fail_action", "authFailAction"),
   ("redirect_http_response_code", "redirectHttpResponseCode")]

/-- `Handler.API_VALUES`: for each Admin API field, the translation table
from yaml value to Admin API constant. -/
def API_VALUES : List (String × List (Value × Value)) :=
  [("securityLevel",
    [(.str "optional", .str "SECURE_OPTIONAL"),
     (.str "never", .str "SECURE_NEVER"),
     (.str "always", .str "SECURE_ALWAYS")]),
   ("login",
    [(.str "optional", .str "LOGIN_OPTIONAL"),
     (.str "required", .str "LOGIN_REQUIRED"),
     (.str "admin", .str "LOGIN_ADMIN")]),
   ("authFailAction",
    [(.str "redirect", .str "AUTH_FAIL_ACTION_REDIRECT"),
     (.str "unauthorized", .str "AUTH_FAIL_ACTION_UNAUTHORIZED")]),
   ("redirectHttpResponseCode",
    [(.int 301, .str "REDIRECT_HTTP_RESPONSE_CODE_301"),
     (.int 302, .str "REDIRECT_HTTP_RESPONSE_CODE_302"),
     (.int 303, .str "REDIRECT_HTTP_RESPONSE_CODE_303"),
     (.int 307, .str "REDIRECT_HTTP_RESPONSE_CODE_307")])]

/-- `self.API_VALUES[api_field][value]` as a partial lookup (`none` models
`KeyError`). -/
def translateApi (api : String) (v : Value) : Option Value :=
  match alookup API_VALUES api with
  | none => none
  | some table => alookup table v

/-- `Handler.STATIC_API_FIELDS`, in source (dict-literal) order. -/
def STATIC_API_FIELDS : List (String × String) :=
  [("upload", "uploadPathRegex"), ("http_headers", "httpHeaders"),
   ("mime_type", "mimeType"), ("expiration", "expiration"),
   ("application_readable", "applicationReadable")]

/-- The `for attr, api_field in self.API_FIELDS.items()` loop of
`to_api_dict`: skip unset attributes, translate set ones through
`API_VALUES`; `none` models the `KeyError` a non-table value would raise
(never reached for validated handlers). -/
def applyApiFields (h : Handler) : List (String × String) → ValueDict →
    Option ValueDict
  | [], d => some d
  | (attr, api) :: rest, d =>
    if getAttr h attr = .null then applyApiFields h rest d
    else
      match translateApi api (getAttr h attr) with
      | none => none
      | some c => applyApiFields h rest (d.insert (.str api) c)

/-- The `for attr, api_field in self.STATIC_API_FIELDS.items()` loop: copy
every set secondary static attribute into the static section under its API
name (overwriting an existing entry, as Python dict assignment does). -/
def applyStaticFields (h : Handler) : List (String × String) → ValueDict →
    ValueDict
  | [], d => d
  | (attr, api) :: rest, d =>
    if getAttr h attr = .null then applyStaticFields h rest d
    else applyStaticFields h rest (d.insert (.str api) (getAttr h attr))

/-- `'{}/.*'.format(self.static_dir)`.  For validated handlers
`static_dir` is a string whenever it is truthy; the other arms model
Python `str()` of the remaining scalar values (the dict arm is never
reached from `to_api_dict`). -/
def formatUpload : Value → Value
  | .str s => .str (s ++ "/.*")
  | .int n => .str (toString n ++ "/.*")
  | .bool b => .str ((if b then "True" else "False") ++ "/.*")
  | .null => .str ("None" ++ "/.*")
  | .dict _ => .str "/.*"

/-- The `static_section` dict of `to_api_dict`: seeded from `static_dir`
(truthiness test!) or else `static_files`, then overlaid with the secondary
static fields. -/
def staticSection (h : Handler) : ValueDict :=
  applyStaticFields h STATIC_API_FIELDS
    (if truthy h.static_dir then
      .cons (.str "path") h.static_dir
        (.cons (.str "uploadPathRegex") (formatUpload h.static_dir) .nil)
    else .cons (.str "path") h.static_files .nil)

/-- `Handler.to_api_dict`: `urlRegex`, the four directly-mapped fields, then
either the `staticFiles` section or the `script` section. -/
def to_api_dict (h : Handler) : Option ValueDict :=
  match applyApiFields h API_FIELDS (.cons (.str "urlRegex") h.url .nil) with
  | none => none
  | some d =>
    if static_defined h then
      some (d.insert (.str "staticFiles") (.dict (staticSection h)))
    else
      some (d.insert (.str "script")
        (.dict (.cons (.str "scriptPath") h.script .nil)))


/-! ## Inversion and frame lemmas for `from_yaml` -/

theorem getAttr_url (h : Handler) : getAttr h "url" = h.url := rfl

theorem getAttr_application_readable (h : Handler) :
    getAttr h "application_readable" = h.application_readable := rfl

theorem getAttr_auth_fail_action (h : Handler) :
    getAttr h "auth_fail_action" = h.auth_fail_action := rfl

theorem getAttr_expiration (h : Handler) : getAttr h "expiration" = h.expiration := rfl

theorem getAttr_http_headers (h : Handler) :
    getAttr h "http_headers" = h.http_headers := rfl

theorem getAttr_login (h : Handler) : getAttr h "login" = h.login := rfl

theorem getAttr_mime_type (h : Handler) : getAttr h "mime_type" = h.mime_type := rfl

theorem getAttr_redirect (h : Handler) :
    getAttr h "redirect_http_response_code" = h.redirect_http_response_code := rfl

theorem getAttr_script (h : Handler) : getAttr h "script" = h.script := rfl

theorem getAttr_secure (h : Handler) : getAttr h "secure" = h.secure := rfl

theorem getAttr_static_dir (h : Handler) : getAttr h "static_dir" = h.static_dir := rfl

theorem getAttr_static_files (h : Handler) :
    getAttr h "static_files" = h.static_files := rfl

theorem getAttr_upload (h : Handler) : getAttr h "upload" = h.upload := rfl

theorem getAttr_setField_ne (f g : String) (h : Handler) (v : Value)
    (hne : f ≠ g) : getAttr (setField f h v) g = getAttr h g := by
  unfold setField
  split <;> (unfold getAttr; split <;> simp_all)

theorem getAttr_setField_self (f : String) (h : Handler) (v : Value)
    (hf : f ∈ FIELD_ORDER) : getAttr (setField f h v) f = v := by
  simp only [FIELD_ORDER, List.mem_cons, List.not_mem_nil, or_false] at hf
  rcases hf with rfl | rfl | rfl | rfl | rfl | rfl | rfl | rfl | rfl | rfl |
    rfl | rfl | rfl <;> rfl

theorem checkRule_ok_none (raw : RawMap) (f : String)
    (hok : checkRule raw f = .ok none) :
    alookup raw f = none ∨ alookup raw f = some .null := by
  unfold checkRule at hok
  split at hok
  · left; assumption
  · rename_i v hv
    split at hok
    · right; subst v; assumption
    · split at hok <;> simp_all

theorem checkRule_ok_some (raw : RawMap) (f : String) (v : Value)
    (hok : checkRule raw f = .ok (some v)) :
    alookup raw f = some v ∧ v ≠ .null ∧ fieldRule f v = some true := by
  unfold checkRule at hok
  split at hok
  · simp_all
  · rename_i w hw
    split at hok
    · simp_all
    · rename_i hwnull
      split at hok <;> rename_i hrule
      · simp_all
      · simp_all
      · simp only [Except.ok.injEq, Option.some.injEq] at hok
        subst hok
        exact ⟨hw, hwnull, hrule⟩

theorem checkRule_present_valid (raw : RawMap) (f : String) (v : Value)
    (hl : alookup raw f = some v) (hv : v ≠ .null)
    (hr : fieldRule f v = some true) : checkRule raw f = .ok (some v) := by
  unfold checkRule
  rw [hl]
  simp [hv, hr]

theorem applyFields_frame :
    ∀ (names : List String) (raw : RawMap) (h0 h : Handler) (f : String),
      f ∉ names → applyFields raw names h0 = .ok h →
      getAttr h f = getAttr h0 f
  | [], raw, h0, h, f => fun _ hok => by
      simp only [applyFields, Except.ok.injEq] at hok
      rw [← hok]
  | g :: rest, raw, h0, h, f => fun hnot hok => by
      have hgf : g ≠ f := fun hgf => hnot (hgf ▸ List.mem_cons_self g rest)
      have hfr : f ∉ rest := fun hfr => hnot (List.mem_cons_of_mem g hfr)
      simp only [applyFields] at hok
      cases hc : checkRule raw g with
      | error e => rw [hc] at hok; exact absurd hok (by simp)
      | ok ov =>
        cases ov with
        | none =>
          rw [hc] at hok
          exact applyFields_frame rest raw h0 h f hfr hok
        | some v =>
          rw [hc] at hok
          have := applyFields_frame rest raw (setField g h0 v) h f hfr hok
          rw [this, getAttr_setField_ne g f h0 v hgf]

theorem applyFields_sound :
    ∀ (names : List String) (raw : RawMap) (h0 h : Handler) (f : String),
      f ∈ names → names.Nodup → f ∈ FIELD_ORDER →
      applyFields raw names h0 = .ok h →
      getAttr h f = getAttr h0 f ∨
        ∃ v, alookup raw f = some v ∧ v ≠ .null ∧ fieldRule f v = some true ∧
          getAttr h f = v
  | [], raw, h0, h, f => fun hf => absurd hf (List.not_mem_nil f)
  | g :: rest, raw, h0, h, f => fun hf hnd hford hok => by
      simp only [applyFields] at hok
      rcases List.mem_cons.mp hf with rfl | hfr
      · have hfrest : f ∉ rest := (List.nodup_cons.mp hnd).1
        cases hc : checkRule raw f with
        | error e => rw [hc] at hok; exact absurd hok (by simp)
        | ok ov =>
          cases ov with
          | none =>
            rw [hc] at hok
            exact Or.inl (applyFields_frame rest raw h0 h f hfrest hok)
          | some v =>
            rw [hc] at hok
            obtain ⟨hl, hv, hr⟩ := checkRule_ok_some raw f v hc
            refine Or.inr ⟨v, hl, hv, hr, ?_⟩
            have := applyFields_frame rest raw (setField f h0 v) h f hfrest hok
            rw [this, getAttr_setField_self f h0 v hford]
      · have hgf : g ≠ f := by
          rintro rfl
          exact (List.nodup_cons.mp hnd).1 hfr
        have hndr : rest.Nodup := (List.nodup_cons.mp hnd).2
        cases hc : checkRule raw g with
        | error e => rw [hc] at hok; exact absurd hok (by simp)
        | ok ov =>
          cases ov with
          | none =>
            rw [hc] at hok
            exact applyFields_sound rest raw h0 h f hfr hndr hford hok
          | some v =>
            rw [hc] at hok
            rcases applyFields_sound rest raw (setField g h0 v) h f hfr hndr
                hford hok with heq | hex
            · rw [getAttr_setField_ne g f h0 v hgf] at heq
              exact Or.inl heq
            · exact Or.inr hex

theorem applyFields_forced :
    ∀ (names : List String) (raw : RawMap) (h0 h : Handler) (f : String)
      (v : Value),
      f ∈ names → names.Nodup → f ∈ FIELD_ORDER →
      alookup raw f = some v → v ≠ .null →
      applyFields raw names h0 = .ok h →
      fieldRule f v = some true ∧ getAttr h f = v
  | [], raw, h0, h, f, v => fun hf => absurd hf (List.not_mem_nil f)
  | g :: rest, raw, h0, h, f, v => fun hf hnd hford hl hv hok => by
      simp only [applyFields] at hok
      rcases List.mem_cons.mp hf with rfl | hfr
      · have hfrest : f ∉ rest := (List.nodup_cons.mp hnd).1
        cases hr : fieldRule f v with
        | none =>
          have hc : checkRule raw f = .error .typeError := by
            unfold checkRule
            rw [hl]
            simp [hv, hr]
          rw [hc] at hok
          exact absurd hok (by simp)
        | some b =>
          cases b with
          | false =>
            have hc : checkRule raw f = .error (.config (.invalidValue f)) := by
              unfold checkRule
              rw [hl]
              simp [hv, hr]
            rw [hc] at hok
            exact absurd hok (by simp)
          | true =>
            have hc := checkRule_present_valid raw f v hl hv hr
            rw [hc] at hok
            refine ⟨rfl, ?_⟩
            have := applyFields_frame rest raw (setField f h0 v) h f hfrest hok
            rw [this, getAttr_setField_self f h0 v hford]
      · have hndr : rest.Nodup := (List.nodup_cons.mp hnd).2
        cases hc : checkRule raw g with
        | error e => rw [hc] at hok; exact absurd hok (by simp)
        | ok ov =>
          cases ov with
          | none =>
            rw [hc] at hok
            exact applyFields_forced rest raw h0 h f v hfr hndr hford hl hv hok
          | some w =>
            rw [hc] at hok
            exact applyFields_forced rest raw (setField g h0 w) h f v hfr hndr
              hford hl hv hok

theorem FIELD_ORDER_nodup : FIELD_ORDER.Nodup := by decide

/-- Destructor for a successful `from_yaml` run: the `url` key was present,
no unknown field was seen, the validation loop succeeded with the returned
handler, and all three cross-field checks passed. -/
theorem from_yaml_ok_destruct (raw : RawMap) (h : Handler)
    (hok : from_yaml raw = .ok h) :
    ∃ url, alookup raw "url" = some url ∧ firstUnknown raw = none ∧
      applyFields raw FIELD_ORDER (initHandler url) = .ok h ∧
      (decide (h.script ≠ .null) && static_defined h) = false ∧
      (decide (h.script = .null) && !static_defined h) = false ∧
      (static_defined h && decide (h.static_dir ≠ .null) &&
        decide (h.static_files ≠ .null)) = false := by
  unfold from_yaml at hok
  split at hok
  · exact absurd hok (by simp)
  · rename_i url hu
    split at hok
    · exact absurd hok (by simp)
    · rename_i hf
      split at hok
      · exact absurd hok (by simp)
      · rename_i h' ha
        split at hok
        · exact absurd hok (by simp)
        · rename_i hc1
          split at hok
          · exact absurd hok (by simp)
          · rename_i hc2
            split at hok
            · exact absurd hok (by simp)
            · rename_i hc3
              simp only [Except.ok.injEq] at hok
              subst hok
              exact ⟨url, hu, hf, ha, Bool.eq_false_iff.mpr hc1,
                Bool.eq_false_iff.mpr hc2, Bool.eq_false_iff.mpr hc3⟩

theorem getAttr_initHandler_null (url : Value) (f : String)
    (hf : f ∈ FIELD_ORDER) (hne : f ≠ "url") :
    getAttr (initHandler url) f = .null := by
  simp only [FIELD_ORDER, List.mem_cons, List.not_mem_nil, or_false] at hf
  rcases hf with rfl | rfl | rfl | rfl | rfl | rfl | rfl | rfl | rfl | rfl |
      rfl | rfl | rfl <;>
    first
    | rfl
    | exact absurd rfl hne

/-- Any non-`url` field of a handler built by `from_yaml` is either still
`None` or holds a raw value that passed its validation rule. -/
theorem from_yaml_field_sound (raw : RawMap) (h : Handler) (f : String)
    (hf : f ∈ FIELD_ORDER) (hne : f ≠ "url") (hok : from_yaml raw = .ok h) :
    getAttr h f = .null ∨
      ∃ v, alookup raw f = some v ∧ v ≠ .null ∧ fieldRule f v = some true ∧
        getAttr h f = v := by
  obtain ⟨url, hu, hfu, ha, _, _, _⟩ := from_yaml_ok_destruct raw h hok
  rcases applyFields_sound FIELD_ORDER raw (initHandler url) h f hf
      FIELD_ORDER_nodup hf ha with heq | hex
  · left
    rw [heq, getAttr_initHandler_null url f hf hne]
  · exact Or.inr hex

/-- A recognized field present in `raw` with a non-`None` value ends up
assigned verbatim on any handler `from_yaml` returns. -/
theorem from_yaml_present (raw : RawMap) (h : Handler) (f : String) (v : Value)
    (hf : f ∈ FIELD_ORDER) (hl : alookup raw f = some v) (hv : v ≠ .null)
    (hok : from_yaml raw = .ok h) : getAttr h f = v := by
  obtain ⟨url, hu, hfu, ha, _, _, _⟩ := from_yaml_ok_destruct raw h hok
  exact (applyFields_forced FIELD_ORDER raw (initHandler url) h f v hf
    FIELD_ORDER_nodup hf hl hv ha).2

theorem static_defined_eq_true (h : Handler) :
    static_defined h = true ↔ h.static_dir ≠ .null ∨ h.static_files ≠ .null := by
  simp [static_defined]

theorem static_defined_eq_false (h : Handler) :
    static_defined h = false ↔ h.static_dir = .null ∧ h.static_files = .null := by
  simp [static_defined]

/-- The script/static cross-field invariants enforced by `from_yaml`:
not both, not neither, and not both static targets. -/
theorem from_yaml_cross (raw : RawMap) (h : Handler)
    (hok : from_yaml raw = .ok h) :
    (h.script = .null ∨ static_defined h = false) ∧
      (h.script ≠ .null ∨ static_defined h = true) ∧
      (h.static_dir = .null ∨ h.static_files = .null) := by
  obtain ⟨url, _, _, _, hc1, hc2, hc3⟩ := from_yaml_ok_destruct raw h hok
  refine ⟨?_, ?_, ?_⟩
  · by_cases hs : h.script = .null
    · exact Or.inl hs
    · right
      cases hsd : static_defined h
      · rfl
      · rw [hsd] at hc1
        simp [hs] at hc1
  · by_cases hs : h.script = .null
    · right
      cases hsd : static_defined h
      · rw [hsd] at hc2
        simp [hs] at hc2
      · rfl
    · exact Or.inl hs
  · by_cases hd : h.static_dir = .null
    · exact Or.inl hd
    · right
      by_cases hff : h.static_files = .null
      · exact hff
      · exfalso
        have hsd : static_defined h = true :=
          (static_defined_eq_true h).mpr (Or.inl hd)
        rw [hsd] at hc3
        simp [hd, hff] at hc3

theorem from_yaml_secure_values (raw : RawMap) (h : Handler)
    (hok : from_yaml raw = .ok h) :
    h.secure = .null ∨ h.secure = .str "optional" ∨ h.secure = .str "never" ∨
      h.secure = .str "always" := by
  rcases from_yaml_field_sound raw h "secure" (by decide) (by decide) hok with
    h1 | ⟨v, _, _, hr, hv⟩
  · exact Or.inl h1
  · simp only [fieldRule, Option.some.injEq, decide_eq_true_eq] at hr
    rw [getAttr_secure] at hv
    rw [hv]
    tauto

theorem from_yaml_login_values (raw : RawMap) (h : Handler)
    (hok : from_yaml raw = .ok h) :
    h.login = .null ∨ h.login = .str "optional" ∨ h.login = .str "required" ∨
      h.login = .str "admin" := by
  rcases from_yaml_field_sound raw h "login" (by decide) (by decide) hok with
    h1 | ⟨v, _, _, hr, hv⟩
  · exact Or.inl h1
  · simp only [fieldRule, Option.some.injEq, decide_eq_true_eq] at hr
    rw [getAttr_login] at hv
    rw [hv]
    tauto

theorem from_yaml_auth_fail_action_values (raw : RawMap) (h : Handler)
    (hok : from_yaml raw = .ok h) :
    h.auth_fail_action = .null ∨ h.auth_fail_action = .str "redirect" ∨
      h.auth_fail_action = .str "unauthorized" := by
  rcases from_yaml_field_sound raw h "auth_fail_action" (by decide) (by decide)
      hok with h1 | ⟨v, _, _, hr, hv⟩
  · exact Or.inl h1
  · simp only [fieldRule, Option.some.injEq, decide_eq_true_eq] at hr
    rw [getAttr_auth_fail_action] at hv
    rw [hv]
    tauto

theorem from_yaml_redirect_values (raw : RawMap) (h : Handler)
    (hok : from_yaml raw = .ok h) :
    h.redirect_http_response_code = .null ∨
      h.redirect_http_response_code = .int 301 ∨
      h.redirect_http_response_code = .int 302 ∨
      h.redirect_http_response_code = .int 303 ∨
      h.redirect_http_response_code = .int 307 := by
  rcases from_yaml_field_sound raw h "redirect_http_response_code" (by decide)
      (by decide) hok with h1 | ⟨v, _, _, hr, hv⟩
  · exact Or.inl h1
  · simp only [fieldRule, Option.some.injEq, decide_eq_true_eq] at hr
    rw [getAttr_redirect] at hv
    rw [hv]
    tauto

theorem from_yaml_static_dir_str (raw : RawMap) (h : Handler)
    (hok : from_yaml raw = .ok h) :
    h.static_dir = .null ∨ ∃ s, h.static_dir = .str s := by
  rcases from_yaml_field_sound raw h "static_dir" (by decide) (by decide) hok
    with h1 | ⟨v, _, _, hr, hv⟩
  · exact Or.inl h1
  · right
    rw [getAttr_static_dir] at hv
    cases v <;> simp_all [fieldRule, isStr]

theorem from_yaml_static_files_str (raw : RawMap) (h : Handler)
    (hok : from_yaml raw = .ok h) :
    h.static_files = .null ∨ ∃ s, h.static_files = .str s := by
  rcases from_yaml_field_sound raw h "static_files" (by decide) (by decide) hok
    with h1 | ⟨v, _, _, hr, hv⟩
  · exact Or.inl h1
  · right
    rw [getAttr_static_files] at hv
    cases v <;> simp_all [fieldRule, isStr]

theorem from_yaml_script_str (raw : RawMap) (h : Handler)
    (hok : from_yaml raw = .ok h) :
    h.script = .null ∨ ∃ s, h.script = .str s := by
  rcases from_yaml_field_sound raw h "script" (by decide) (by decide) hok
    with h1 | ⟨v, _, _, hr, hv⟩
  · exact Or.inl h1
  · right
    rw [getAttr_script] at hv
    cases v <;> simp_all [fieldRule, isStr]

/-! ## Lemmas about `to_api_dict` -/

theorem Value.str_ne_of_ne {a b : String} (hne : a ≠ b) :
    Value.str a ≠ Value.str b := by
  intro hh
  cases hh
  exact hne rfl

theorem applyApiFields_some :
    ∀ (fields : List (String × String)) (h : Handler) (d : ValueDict),
      (∀ p ∈ fields, getAttr h p.1 = .null ∨
        ∃ c, translateApi p.2 (getAttr h p.1) = some c) →
      ∃ d', applyApiFields h fields d = some d'
  | [], h, d => fun _ => ⟨d, rfl⟩
  | (attr, api) :: rest, h, d => fun hall => by
      have hhead := hall (attr, api) (List.mem_cons_self _ _)
      simp only [applyApiFields]
      by_cases hnull : getAttr h attr = .null
      · rw [if_pos hnull]
        exact applyApiFields_some rest h d
          (fun p hp => hall p (List.mem_cons_of_mem _ hp))
      · rw [if_neg hnull]
        rcases hhead with hnull' | ⟨c, hc⟩
        · exact absurd hnull' hnull
        · rw [hc]
          exact applyApiFields_some rest h (d.insert (.str api) c)
            (fun p hp => hall p (List.mem_cons_of_mem _ hp))

theorem applyApiFields_lookup_notmem :
    ∀ (fields : List (String × String)) (h : Handler) (d d' : ValueDict)
      (api : String),
      applyApiFields h fields d = some d' → (∀ p ∈ fields, p.2 ≠ api) →
      d'.lookup (.str api) = d.lookup (.str api)
  | [], h, d, d', api => fun hok _ => by
      simp only [applyApiFields, Option.some.injEq] at hok
      rw [← hok]
  | (attr, api') :: rest, h, d, d', api => fun hok hnot => by
      have hne : api' ≠ api := hnot (attr, api') (List.mem_cons_self _ _)
      have hrest : ∀ p ∈ rest, p.2 ≠ api :=
        fun p hp => hnot p (List.mem_cons_of_mem _ hp)
      simp only [applyApiFields] at hok
      by_cases hnull : getAttr h attr = .null
      · rw [if_pos hnull] at hok
        exact applyApiFields_lookup_notmem rest h d d' api hok hrest
      · rw [if_neg hnull] at hok
        cases hc : translateApi api' (getAttr h attr) with
        | none => rw [hc] at hok; exact absurd hok (by simp)
        | some c =>
          rw [hc] at hok
          have := applyApiFields_lookup_notmem rest h
            (d.insert (.str api') c) d' api hok hrest
          rw [this, ValueDict.lookup_insert_ne d (.str api) (.str api') c
            (Value.str_ne_of_ne hne)]

theorem applyApiFields_lookup_mem :
    ∀ (fields : List (String × String)) (h : Handler) (d d' : ValueDict)
      (attr api : String),
      applyApiFields h fields d = some d' → (attr, api) ∈ fields →
      (fields.map Prod.snd).Nodup →
      (getAttr h attr = .null ∧
        d'.lookup (.str api) = d.lookup (.str api)) ∨
      (∃ c, translateApi api (getAttr h attr) = some c ∧
        d'.lookup (.str api) = some c)
  | [], h, d, d', attr, api => fun _ hmem => absurd hmem (List.not_mem_nil _)
  | (attr', api') :: rest, h, d, d', attr, api => fun hok hmem hnd => by
      simp only [List.map_cons, List.nodup_cons] at hnd
      obtain ⟨hnotin, hndr⟩ := hnd
      simp only [applyApiFields] at hok
      rcases List.mem_cons.mp hmem with heq | hmemr
      · obtain ⟨rfl, rfl⟩ := Prod.mk.injEq .. ▸ heq
        have hrest : ∀ p ∈ rest, p.2 ≠ api := by
          intro p hp hpeq
          exact hnotin (hpeq ▸ List.mem_map_of_mem Prod.snd hp)
        by_cases hnull : getAttr h attr = .null
        · rw [if_pos hnull] at hok
          exact Or.inl ⟨hnull,
            applyApiFields_lookup_notmem rest h d d' api hok hrest⟩
        · rw [if_neg hnull] at hok
          cases hc : translateApi api (getAttr h attr) with
          | none => rw [hc] at hok; exact absurd hok (by simp)
          | some c =>
            rw [hc] at hok
            refine Or.inr ⟨c, rfl, ?_⟩
            have := applyApiFields_lookup_notmem rest h
              (d.insert (.str api) c) d' api hok hrest
            rw [this, ValueDict.lookup_insert_self]
      · have hne : api' ≠ api := by
          intro hq
          exact hnotin (hq ▸ List.mem_map_of_mem Prod.snd hmemr)
        by_cases hnull : getAttr h attr' = .null
        · rw [if_pos hnull] at hok
          exact applyApiFields_lookup_mem rest h d d' attr api hok hmemr hndr
        · rw [if_neg hnull] at hok
          cases hc : translateApi api' (getAttr h attr') with
          | none => rw [hc] at hok; exact absurd hok (by simp)
          | some c =>
            rw [hc] at hok
            rcases applyApiFields_lookup_mem rest h (d.insert (.str api') c)
                d' attr api hok hmemr hndr with ⟨hn, hl⟩ | hr
            · rw [ValueDict.lookup_insert_ne d (.str api) (.str api') c
                (Value.str_ne_of_ne hne)] at hl
              exact Or.inl ⟨hn, hl⟩
            · exact Or.inr hr

theorem applyStaticFields_lookup_notmem :
    ∀ (fields : List (String × String)) (h : Handler) (d : ValueDict)
      (api : String),
      (∀ p ∈ fields, p.2 ≠ api) →
      (applyStaticFields h fields d).lookup (.str api) = d.lookup (.str api)
  | [], h, d, api => fun _ => rfl
  | (attr, api') :: rest, h, d, api => fun hnot => by
      have hne : api' ≠ api := hnot (attr, api') (List.mem_cons_self _ _)
      have hrest : ∀ p ∈ rest, p.2 ≠ api :=
        fun p hp => hnot p (List.mem_cons_of_mem _ hp)
      simp only [applyStaticFields]
      by_cases hnull : getAttr h attr = .null
      · rw [if_pos hnull]
        exact applyStaticFields_lookup_notmem rest h d api hrest
      · rw [if_neg hnull]
        rw [applyStaticFields_lookup_notmem rest h _ api hrest]
        exact ValueDict.lookup_insert_ne d (.str api) (.str api') _
          (Value.str_ne_of_ne hne)

theorem applyStaticFields_lookup_mem :
    ∀ (fields : List (String × String)) (h : Handler) (d : ValueDict)
      (attr api : String),
      (attr, api) ∈ fields → (fields.map Prod.snd).Nodup →
      (getAttr h attr = .null ∧
        (applyStaticFields h fields d).lookup (.str api) =
          d.lookup (.str api)) ∨
      (getAttr h attr ≠ .null ∧
        (applyStaticFields h fields d).lookup (.str api) =
          some (getAttr h attr))
  | [], h, d, attr, api => fun hmem => absurd hmem (List.not_mem_nil _)
  | (attr', api') :: rest, h, d, attr, api => fun hmem hnd => by
      simp only [List.map_cons, List.nodup_cons] at hnd
      obtain ⟨hnotin, hndr⟩ := hnd
      simp only [applyStaticFields]
      rcases List.mem_cons.mp hmem with heq | hmemr
      · obtain ⟨rfl, rfl⟩ := Prod.mk.injEq .. ▸ heq
        have hrest : ∀ p ∈ rest, p.2 ≠ api := by
          intro p hp hpeq
          exact hnotin (hpeq ▸ List.mem_map_of_mem Prod.snd hp)
        by_cases hnull : getAttr h attr = .null
        · rw [if_pos hnull]
          exact Or.inl ⟨hnull,
            applyStaticFields_lookup_notmem rest h d api hrest⟩
        · rw [if_neg hnull]
          refine Or.inr ⟨hnull, ?_⟩
          rw [applyStaticFields_lookup_notmem rest h _ api hrest]
          exact ValueDict.lookup_insert_self d (.str api) _
      · have hne : api' ≠ api := by
          intro hq
          exact hnotin (hq ▸ List.mem_map_of_mem Prod.snd hmemr)
        by_cases hnull : getAttr h attr' = .null
        · rw [if_pos hnull]
          exact applyStaticFields_lookup_mem rest h d attr api hmemr hndr
        · rw [if_neg hnull]
          rcases applyStaticFields_lookup_mem rest h
              (d.insert (.str api') (getAttr h attr')) attr api hmemr hndr with
            ⟨hn, hl⟩ | ⟨hn, hl⟩
          · rw [ValueDict.lookup_insert_ne d (.str api) (.str api') _
              (Value.str_ne_of_ne hne)] at hl
            exact Or.inl ⟨hn, hl⟩
          · exact Or.inr ⟨hn, hl⟩

/-- Destructor for a successful `to_api_dict` run: the API-field loop
succeeded with some intermediate dict, and the output is that dict extended
with either the `staticFiles` section or the `script` section. -/
theorem to_api_dict_destruct (h : Handler) (out : ValueDict)
    (hsome : to_api_dict h = some out) :
    ∃ d, applyApiFields h API_FIELDS
        (.cons (.str "urlRegex") h.url .nil) = some d ∧
      ((static_defined h = true ∧
        out = d.insert (.str "staticFiles") (.dict (staticSection h))) ∨
       (static_defined h = false ∧
        out = d.insert (.str "script")
          (.dict (.cons (.str "scriptPath") h.script .nil)))) := by
  unfold to_api_dict at hsome
  split at hsome
  · exact absurd hsome (by simp)
  · rename_i d ha
    split at hsome
    · rename_i hsd
      simp only [Option.some.injEq] at hsome
      exact ⟨d, ha, Or.inl ⟨hsd, hsome.symm⟩⟩
    · rename_i hsd
      simp only [Option.some.injEq] at hsome
      exact ⟨d, ha, Or.inr ⟨Bool.not_eq_true _ ▸ hsd, hsome.symm⟩⟩

/-- On any handler produced by `from_yaml`, every `API_VALUES` lookup that
`to_api_dict` performs succeeds, so `to_api_dict` returns a dict. -/
theorem to_api_dict_total (raw : RawMap) (h : Handler)
    (hok : from_yaml raw = .ok h) : ∃ out, to_api_dict h = some out := by
  have hall : ∀ p ∈ API_FIELDS, getAttr h p.1 = .null ∨
      ∃ c, translateApi p.2 (getAttr h p.1) = some c := by
    intro p hp
    simp only [API_FIELDS, List.mem_cons, List.not_mem_nil, or_false] at hp
    rcases hp with rfl | rfl | rfl | rfl
    · rcases from_yaml_secure_values raw h hok with hv | hv | hv | hv <;>
        rw [getAttr_secure, hv]
      · exact Or.inl rfl
      all_goals exact Or.inr ⟨_, rfl⟩
    · rcases from_yaml_login_values raw h hok with hv | hv | hv | hv <;>
        rw [getAttr_login, hv]
      · exact Or.inl rfl
      all_goals exact Or.inr ⟨_, rfl⟩
    · rcases from_yaml_auth_fail_action_values raw h hok with hv | hv | hv <;>
        rw [getAttr_auth_fail_action, hv]
      · exact Or.inl rfl
      all_goals exact Or.inr ⟨_, rfl⟩
    · rcases from_yaml_redirect_values raw h hok with hv | hv | hv | hv | hv <;>
        rw [getAttr_redirect, hv]
      · exact Or.inl rfl
      all_goals exact Or.inr ⟨_, rfl⟩
  obtain ⟨d, hd⟩ :=
    applyApiFields_some API_FIELDS h (.cons (.str "urlRegex") h.url .nil) hall
  unfold to_api_dict
  simp only [hd]
  by_cases hsd : static_defined h = true
  · rw [if_pos hsd]
    exact ⟨_, rfl⟩
  · rw [if_neg hsd]
    exact ⟨_, rfl⟩

/-! ## Claim theorems: validation (C1, C4, C5, C6, C10) -/

/-- A field is "set" in a raw mapping when the key is present with a
non-`None` value (only then does `from_yaml` assign the attribute). -/
def fieldSet (raw : RawMap) (f : String) : Bool :=
  match alookup raw f with
  | some v => decide (v ≠ .null)
  | none => false

theorem fieldSet_iff (raw : RawMap) (f : String) :
    fieldSet raw f = true ↔ ∃ v, alookup raw f = some v ∧ v ≠ .null := by
  unfold fieldSet
  cases alookup raw f <;> simp

/-- The raw mapping of the C1 counterexample: both `script` and
`static_dir` are set, and `expiration` holds a non-string value. -/
def c1CexRaw : RawMap :=
  [("url", .str "/"), ("script", .str "a"), ("static_dir", .str "b"),
   ("expiration", .int 5)]

/-- C1 counterexample: a raw mapping with both `script` and `static_dir`
set on which `FromRaw` does not raise ConfigError: the non-string
`expiration` value reaches `re.compile(EXPIRATION_RE).match`, which raises
`TypeError` before the cross-field check is reached, so `from_yaml` fails
with `TypeError` rather than an `AppEngineConfigException`. -/
theorem c1_counterexample :
    fieldSet c1CexRaw "script" = true ∧
    fieldSet c1CexRaw "static_dir" = true ∧
    from_yaml c1CexRaw = .error .typeError ∧
    ∀ c : ConfigErr, from_yaml c1CexRaw ≠ .error (.config c) := by
  refine ⟨by decide, by decide, by decide, ?_⟩
  intro c hc
  have h1 : from_yaml c1CexRaw = .error .typeError := by decide
  rw [h1] at hc
  simp at hc

/-- C1 (amended): for every raw mapping, `FromRaw` fails (though not
necessarily with ConfigError: a non-string `expiration` value raises
`TypeError` instead) when both `script` and a static target are set, when
neither is set, or when both `static_dir` and `static_files` are set; and
every handler returned by `FromRaw` satisfies exactly one of
script-present / static-defined, with at most one static target. -/
theorem c1_theorem (raw : RawMap) :
    (fieldSet raw "script" = true ∧
        (fieldSet raw "static_dir" = true ∨ fieldSet raw "static_files" = true) →
      ∃ e, from_yaml raw = .error e) ∧
    (fieldSet raw "script" = false ∧ fieldSet raw "static_dir" = false ∧
        fieldSet raw "static_files" = false →
      ∃ e, from_yaml raw = .error e) ∧
    (fieldSet raw "static_dir" = true ∧ fieldSet raw "static_files" = true →
      ∃ e, from_yaml raw = .error e) ∧
    (∀ h : Handler, from_yaml raw = .ok h →
      ((h.script ≠ .null ∧ static_defined h = false) ∨
        (h.script = .null ∧ static_defined h = true)) ∧
      ¬(h.static_dir ≠ .null ∧ h.static_files ≠ .null)) := by
  refine ⟨?_, ?_, ?_, ?_⟩
  · rintro ⟨hs, hd⟩
    cases hfy : from_yaml raw with
    | error e => exact ⟨e, rfl⟩
    | ok h =>
      exfalso
      obtain ⟨vs, hls, hvs⟩ := (fieldSet_iff raw "script").mp hs
      have hscript : h.script = vs := by
        have := from_yaml_present raw h "script" vs (by decide) hls hvs hfy
        rwa [getAttr_script] at this
      have hsdef : static_defined h = true := by
        rcases hd with hd | hd
        · obtain ⟨vd, hld, hvd⟩ := (fieldSet_iff raw "static_dir").mp hd
          have hx : h.static_dir = vd := by
            have := from_yaml_present raw h "static_dir" vd (by decide) hld
              hvd hfy
            rwa [getAttr_static_dir] at this
          exact (static_defined_eq_true h).mpr (Or.inl (hx ▸ hvd))
        · obtain ⟨vf, hlf, hvf⟩ := (fieldSet_iff raw "static_files").mp hd
          have hx : h.static_files = vf := by
            have := from_yaml_present raw h "static_files" vf (by decide) hlf
              hvf hfy
            rwa [getAttr_static_files] at this
          exact (static_defined_eq_true h).mpr (Or.inr (hx ▸ hvf))
      rcases (from_yaml_cross raw h hfy).1 with hnull | hfalse
      · exact hvs (hscript.symm.trans hnull)
      · rw [hsdef] at hfalse
        exact Bool.noConfusion hfalse
  · rintro ⟨hns, hnd, hnf⟩
    cases hfy : from_yaml raw with
    | error e => exact ⟨e, rfl⟩
    | ok h =>
      exfalso
      have hs : h.script = .null := by
        rcases from_yaml_field_sound raw h "script" (by decide) (by decide)
            hfy with h1 | ⟨v, hl, hv, _, _⟩
        · rwa [getAttr_script] at h1
        · have h2 := (fieldSet_iff raw "script").mpr ⟨v, hl, hv⟩
          rw [hns] at h2
          exact Bool.noConfusion h2
      have hd : h.static_dir = .null := by
        rcases from_yaml_field_sound raw h "static_dir" (by decide) (by decide)
            hfy with h1 | ⟨v, hl, hv, _, _⟩
        · rwa [getAttr_static_dir] at h1
        · have h2 := (fieldSet_iff raw "static_dir").mpr ⟨v, hl, hv⟩
          rw [hnd] at h2
          exact Bool.noConfusion h2
      have hf : h.static_files = .null := by
        rcases from_yaml_field_sound raw h "static_files" (by decide)
            (by decide) hfy with h1 | ⟨v, hl, hv, _, _⟩
        · rwa [getAttr_static_files] at h1
        · have h2 := (fieldSet_iff raw "static_files").mpr ⟨v, hl, hv⟩
          rw [hnf] at h2
          exact Bool.noConfusion h2
      have hsdf : static_defined h = false :=
        (static_defined_eq_false h).mpr ⟨hd, hf⟩
      rcases (from_yaml_cross raw h hfy).2.1 with hne | htrue
      · exact hne hs
      · rw [hsdf] at htrue
        exact Bool.noConfusion htrue
  · rintro ⟨hd, hf⟩
    cases hfy : from_yaml raw with
    | error e => exact ⟨e, rfl⟩
    | ok h =>
      exfalso
      obtain ⟨vd, hld, hvd⟩ := (fieldSet_iff raw "static_dir").mp hd
      obtain ⟨vf, hlf, hvf⟩ := (fieldSet_iff raw "static_files").mp hf
      have hxd : h.static_dir = vd := by
        have := from_yaml_present raw h "static_dir" vd (by decide) hld hvd hfy
        rwa [getAttr_static_dir] at this
      have hxf : h.static_files = vf := by
        have := from_yaml_present raw h "static_files" vf (by decide) hlf
          hvf hfy
        rwa [getAttr_static_files] at this
      rcases (from_yaml_cross raw h hfy).2.2 with hnull | hnull
      · exact hvd (hxd.symm.trans hnull)
      · exact hvf (hxf.symm.trans hnull)
  · intro h hfy
    obtain ⟨hc1, hc2, hc3⟩ := from_yaml_cross raw h hfy
    constructor
    · by_cases hs : h.script = .null
      · refine Or.inr ⟨hs, ?_⟩
        rcases hc2 with h' | h'
        · exact absurd hs h'
        · exact h'
      · refine Or.inl ⟨hs, ?_⟩
        rcases hc1 with h' | h'
        · exact absurd h' hs
        · exact h'
    · rintro ⟨hdne, hfne⟩
      rcases hc3 with h' | h'
      · exact hdne h'
      · exact hfne h'

/-- Witness for C1: the three failure clauses and the invariant clause of
`c1_theorem`, each applied at a concrete raw mapping / handler. -/
theorem c1_witness :
    (∃ e, from_yaml [("url", .str "/"), ("script", .str "a"),
      ("static_dir", .str "b")] = .error e) ∧
    (∃ e, from_yaml [("url", .str "/")] = .error e) ∧
    (∃ e, from_yaml [("url", .str "/"), ("static_dir", .str "a"),
      ("static_files", .str "b")] = .error e) ∧
    ((({ initHandler (.str "/") with script := .str "a"} : Handler).script ≠
          .null ∧
        static_defined { initHandler (.str "/") with script := .str "a"} =
          false) ∨
      (({ initHandler (.str "/") with script := .str "a"} : Handler).script =
          .null ∧
        static_defined { initHandler (.str "/") with script := .str "a"} =
          true)) :=
  ⟨(c1_theorem _).1 ⟨by decide, Or.inl (by decide)⟩,
   (c1_theorem _).2.1 ⟨by decide, by decide, by decide⟩,
   (c1_theorem _).2.2.1 ⟨by decide, by decide⟩,
   ((c1_theorem [("url", .str "/"), ("script", .str "a")]).2.2.2
     { initHandler (.str "/") with script := .str "a"} (by decide)).1⟩

/-- The raw mapping of the C4 counterexample: `http_headers` is a dict with
an integer key and an integer value. -/
def c4CexRaw : RawMap :=
  [("url", .str "/"), ("script", .str "a.py"),
   ("http_headers", .dict (.cons (.int 1) (.int 2) .nil))]

/-- The handler `from_yaml` builds for `c4CexRaw`. -/
def c4CexH : Handler :=
  { initHandler (.str "/") with
    script := .str "a.py"
    http_headers := .dict (.cons (.int 1) (.int 2) .nil) }

/-- C4 counterexample: the `http_headers` predicate is only
`isinstance(val, dict)`, so a mapping whose keys and values are not strings
is accepted, not rejected: `from_yaml` succeeds and stores it verbatim. -/
theorem c4_counterexample :
    alookup c4CexRaw "http_headers" =
      some (.dict (.cons (.int 1) (.int 2) .nil)) ∧
    from_yaml c4CexRaw = .ok c4CexH ∧
    c4CexH.http_headers = .dict (.cons (.int 1) (.int 2) .nil) := by
  decide

/-- C4 (amended): the `http_headers` predicate accepts every mapping
(string-ness of keys and values is not checked); and on every successful
`from_yaml` run, each recognized field present with a non-null value
satisfied its predicate (so a predicate failure always makes `from_yaml`
fail -- with ConfigError for every predicate except that a non-string
`expiration` value raises `TypeError`). -/
theorem c4_theorem :
    (∀ d : ValueDict, fieldRule "http_headers" (.dict d) = some true) ∧
    (∀ (raw : RawMap) (h : Handler) (f : String) (v : Value),
      from_yaml raw = .ok h → f ∈ FIELD_ORDER → alookup raw f = some v →
      v ≠ .null → fieldRule f v = some true) := by
  refine ⟨fun d => rfl, ?_⟩
  intro raw h f v hok hf hl hv
  obtain ⟨url, hu, hfu, ha, _, _, _⟩ := from_yaml_ok_destruct raw h hok
  exact (applyFields_forced FIELD_ORDER raw (initHandler url) h f v hf
    FIELD_ORDER_nodup hf hl hv ha).1

/-- Witness for C4: both clauses of `c4_theorem` at concrete inputs. -/
theorem c4_witness :
    fieldRule "http_headers" (.dict .nil) = some true ∧
    fieldRule "script" (.str "a") = some true :=
  ⟨c4_theorem.1 .nil,
   c4_theorem.2 [("url", .str "/"), ("script", .str "a")]
     { initHandler (.str "/") with script := .str "a"} "script" (.str "a")
     (by decide) (by decide) (by decide) (by decide)⟩

/-- C5: any raw mapping containing a key outside the recognized field set
makes `from_yaml` raise an `AppEngineConfigException`, regardless of the
rest of the mapping (if `url` is also missing, the missing-`url` ConfigError
fires instead of the unrecognized-field one, but it is still a
ConfigError). -/
theorem c5_theorem (raw : RawMap) (k : String)
    (hk : k ∈ raw.map Prod.fst) (hunk : k ∉ FIELD_ORDER) :
    ∃ c, from_yaml raw = .error (.config c) := by
  have hfind : firstUnknown raw ≠ none := by
    unfold firstUnknown
    intro hnone
    have := List.find?_eq_none.mp hnone k hk
    simp only [Bool.not_eq_true', Bool.not_eq_false] at this
    exact hunk (by simpa using this)
  unfold from_yaml
  cases hu : alookup raw "url" with
  | none => exact ⟨.missingUrl, by simp⟩
  | some url =>
    cases hf : firstUnknown raw with
    | none => exact absurd hf hfind
    | some f => exact ⟨.unrecognizedField f, by simp [hf]⟩

/-- Witness for C5 at a concrete raw mapping with an unknown key. -/
theorem c5_witness :
    ∃ c, from_yaml [("url", .str "/"), ("bogus", .int 1),
      ("script", .str "a")] = .error (.config c) :=
  c5_theorem [("url", .str "/"), ("bogus", .int 1), ("script", .str "a")]
    "bogus" (by decide) (by decide)

/-- C6: a raw mapping without the key `url` always fails with precisely the
missing-`url` ConfigError: the check runs before the unknown-field check,
the per-field predicates, and the cross-field checks, so no other error can
fire first, whatever else the mapping contains. -/
theorem c6_theorem (raw : RawMap) (hu : alookup raw "url" = none) :
    from_yaml raw = .error (.config .missingUrl) := by
  unfold from_yaml
  simp [hu]

/-- Witness for C6 at a concrete mapping that would also trip the
unknown-field check and a field predicate, were they reached. -/
theorem c6_witness :
    from_yaml [("bogus", .int 1), ("script", .int 3)] =
      .error (.config .missingUrl) :=
  c6_theorem [("bogus", .int 1), ("script", .int 3)] (by decide)

/-- The raw mapping of C10: key `url` present with a null value, `script`
set. -/
def c10Raw : RawMap := [("url", .null), ("script", .str "a.py")]

/-- The handler `from_yaml` builds for `c10Raw`: `url` remains `None`. -/
def c10H : Handler := { initHandler .null with script := .str "a.py" }

/-- The output `to_api_dict` produces for `c10H`: `urlRegex` is null. -/
def c10Out : ValueDict :=
  .cons (.str "urlRegex") .null
    (.cons (.str "script")
      (.dict (.cons (.str "scriptPath") (.str "a.py") .nil)) .nil)

/-- C10: with `url` present but null (and the mapping otherwise valid),
`from_yaml` succeeds -- the required-`url` constraint tests key presence
only and the per-field loop skips null values -- the resulting handler has
`url` unset, and `to_api_dict` emits `urlRegex` with a null value. -/
theorem c10_theorem :
    alookup c10Raw "url" = some .null ∧
    from_yaml c10Raw = .ok c10H ∧
    c10H.url = .null ∧
    to_api_dict c10H = some c10Out ∧
    c10Out.lookup (.str "urlRegex") = some .null := by
  decide

/-! ## Claim theorems: serialization (C2, C3, C8, C9) -/

theorem alookup_mem {α β : Type} [DecidableEq α] :
    ∀ (l : List (α × β)) (k : α) (v : β), alookup l k = some v → (k, v) ∈ l
  | [], k, v => by simp [alookup]
  | (k', v') :: rest, k, v => fun hl => by
      unfold alookup at hl
      by_cases hk : k' = k
      · rw [if_pos hk] at hl
        subst hk
        simp only [Option.some.injEq] at hl
        subst hl
        exact List.mem_cons_self _ _
      · rw [if_neg hk] at hl
        exact List.mem_cons_of_mem _ (alookup_mem rest k v hl)

/-- `API_VALUES` has no null key in any of its tables, so translating a
null (unset) value never succeeds. -/
theorem translateApi_null (api : String) : translateApi api .null = none := by
  unfold translateApi
  cases halo : alookup API_VALUES api with
  | none => rfl
  | some table =>
    have hmem := alookup_mem API_VALUES api table halo
    simp only [API_VALUES, List.mem_cons, List.not_mem_nil, or_false,
      Prod.mk.injEq] at hmem
    rcases hmem with ⟨rfl, rfl⟩ | ⟨rfl, rfl⟩ | ⟨rfl, rfl⟩ | ⟨rfl, rfl⟩ <;>
      decide

/-- What `to_api_dict` puts at a directly-mapped API key: nothing if the
attribute is unset, the translated constant if it is set. -/
theorem api_out_lookup (h : Handler) (out : ValueDict)
    (hsome : to_api_dict h = some out) (attr api : String)
    (hmem : (attr, api) ∈ API_FIELDS)
    (h1 : api ≠ "urlRegex") (h2 : api ≠ "staticFiles") (h3 : api ≠ "script") :
    (getAttr h attr = .null ∧ out.lookup (.str api) = none) ∨
    (∃ c, translateApi api (getAttr h attr) = some c ∧
      out.lookup (.str api) = some c) := by
  obtain ⟨d, hd, hbranch⟩ := to_api_dict_destruct h out hsome
  have hout : out.lookup (.str api) = d.lookup (.str api) := by
    rcases hbranch with ⟨_, rfl⟩ | ⟨_, rfl⟩
    · exact ValueDict.lookup_insert_ne d _ _ _
        (Value.str_ne_of_ne (fun hq => h2 hq.symm))
    · exact ValueDict.lookup_insert_ne d _ _ _
        (Value.str_ne_of_ne (fun hq => h3 hq.symm))
  rcases applyApiFields_lookup_mem API_FIELDS h _ d attr api hd hmem
      (by decide) with ⟨hn, hl⟩ | ⟨c, hc, hl⟩
  · left
    refine ⟨hn, ?_⟩
    rw [hout, hl]
    simp [ValueDict.lookup, Value.str_ne_of_ne (fun hq => h1 hq.symm)]
  · right
    exact ⟨c, hc, hout.trans hl⟩

/-- A set directly-mapped attribute appears in the output translated
through `API_VALUES`. -/
theorem api_value_case (h : Handler) (out : ValueDict)
    (hsome : to_api_dict h = some out) (attr api : String)
    (hmem : (attr, api) ∈ API_FIELDS)
    (h1 : api ≠ "urlRegex") (h2 : api ≠ "staticFiles") (h3 : api ≠ "script")
    (v c : Value) (hv : getAttr h attr = v)
    (htrans : translateApi api v = some c) :
    out.lookup (.str api) = some c := by
  rcases api_out_lookup h out hsome attr api hmem h1 h2 h3 with
    ⟨hn, _⟩ | ⟨c', hc', hl⟩
  · rw [hv] at hn
    rw [hn, translateApi_null] at htrans
    exact Option.noConfusion htrans
  · rw [hv, htrans] at hc'
    simp only [Option.some.injEq] at hc'
    rw [← hc'] at hl
    exact hl

/-- An unset directly-mapped attribute leaves its output key absent. -/
theorem api_null_case (h : Handler) (out : ValueDict)
    (hsome : to_api_dict h = some out) (attr api : String)
    (hmem : (attr, api) ∈ API_FIELDS)
    (h1 : api ≠ "urlRegex") (h2 : api ≠ "staticFiles") (h3 : api ≠ "script")
    (hv : getAttr h attr = .null) : out.lookup (.str api) = none := by
  rcases api_out_lookup h out hsome attr api hmem h1 h2 h3 with
    ⟨_, hl⟩ | ⟨c, hc, _⟩
  · exact hl
  · rw [hv, translateApi_null] at hc
    exact Option.noConfusion hc

/-- C3: each of the four directly-mapped fields, when set, is translated to
its unique Admin API constant, and when unset its output key is absent.
All twelve enum entries of the translation table are listed. -/
theorem c3_theorem (raw : RawMap) (h : Handler) (out : ValueDict)
    (_hok : from_yaml raw = .ok h) (hsome : to_api_dict h = some out) :
    (h.secure = .null → out.lookup (.str "securityLevel") = none) ∧
    (h.secure = .str "optional" →
      out.lookup (.str "securityLevel") = some (.str "SECURE_OPTIONAL")) ∧
    (h.secure = .str "never" →
      out.lookup (.str "securityLevel") = some (.str "SECURE_NEVER")) ∧
    (h.secure = .str "always" →
      out.lookup (.str "securityLevel") = some (.str "SECURE_ALWAYS")) ∧
    (h.login = .null → out.lookup (.str "login") = none) ∧
    (h.login = .str "optional" →
      out.lookup (.str "login") = some (.str "LOGIN_OPTIONAL")) ∧
    (h.login = .str "required" →
      out.lookup (.str "login") = some (.str "LOGIN_REQUIRED")) ∧
    (h.login = .str "admin" →
      out.lookup (.str "login") = some (.str "LOGIN_ADMIN")) ∧
    (h.auth_fail_action = .null →
      out.lookup (.str "authFailAction") = none) ∧
    (h.auth_fail_action = .str "redirect" →
      out.lookup (.str "authFailAction") =
        some (.str "AUTH_FAIL_ACTION_REDIRECT")) ∧
    (h.auth_fail_action = .str "unauthorized" →
      out.lookup (.str "authFailAction") =
        some (.str "AUTH_FAIL_ACTION_UNAUTHORIZED")) ∧
    (h.redirect_http_response_code = .null →
      out.lookup (.str "redirectHttpResponseCode") = none) ∧
    (h.redirect_http_response_code = .int 301 →
      out.lookup (.str "redirectHttpResponseCode") =
        some (.str "REDIRECT_HTTP_RESPONSE_CODE_301")) ∧
    (h.redirect_http_response_code = .int 302 →
      out.lookup (.str "redirectHttpResponseCode") =
        some (.str "REDIRECT_HTTP_RESPONSE_CODE_302")) ∧
    (h.redirect_http_response_code = .int 303 →
      out.lookup (.str "redirectHttpResponseCode") =
        some (.str "REDIRECT_HTTP_RESPONSE_CODE_303")) ∧
    (h.redirect_http_response_code = .int 307 →
      out.lookup (.str "redirectHttpResponseCode") =
        some (.str "REDIRECT_HTTP_RESPONSE_CODE_307")) := by
  refine ⟨?_, ?_, ?_, ?_, ?_, ?_, ?_, ?_, ?_, ?_, ?_, ?_, ?_, ?_, ?_, ?_⟩
  · intro hv
    exact api_null_case h out hsome "secure" "securityLevel" (by decide)
      (by decide) (by decide) (by decide) (by rw [getAttr_secure, hv])
  · intro hv
    exact api_value_case h out hsome "secure" "securityLevel" (by decide)
      (by decide) (by decide) (by decide) _ _ (by rw [getAttr_secure, hv])
      (by decide)
  · intro hv
    exact api_value_case h out hsome "secure" "securityLevel" (by decide)
      (by decide) (by decide) (by decide) _ _ (by rw [getAttr_secure, hv])
      (by decide)
  · intro hv
    exact api_value_case h out hsome "secure" "securityLevel" (by decide)
      (by decide) (by decide) (by decide) _ _ (by rw [getAttr_secure, hv])
      (by decide)
  · intro hv
    exact api_null_case h out hsome "login" "login" (by decide)
      (by decide) (by decide) (by decide) (by rw [getAttr_login, hv])
  · intro hv
    exact api_value_case h out hsome "login" "login" (by decide)
      (by decide) (by decide) (by decide) _ _ (by rw [getAttr_login, hv])
      (by decide)
  · intro hv
    exact api_value_case h out hsome "login" "login" (by decide)
      (by decide) (by decide) (by decide) _ _ (by rw [getAttr_login, hv])
      (by decide)
  · intro hv
    exact api_value_case h out hsome "login" "login" (by decide)
      (by decide) (by decide) (by decide) _ _ (by rw [getAttr_login, hv])
      (by decide)
  · intro hv
    exact api_null_case h out hsome "auth_fail_action" "authFailAction"
      (by decide) (by decide) (by decide) (by decide)
      (by rw [getAttr_auth_fail_action, hv])
  · intro hv
    exact api_value_case h out hsome "auth_fail_action" "authFailAction"
      (by decide) (by decide) (by decide) (by decide) _ _
      (by rw [getAttr_auth_fail_action, hv]) (by decide)
  · intro hv
    exact api_value_case h out hsome "auth_fail_action" "authFailAction"
      (by decide) (by decide) (by decide) (by decide) _ _
      (by rw [getAttr_auth_fail_action, hv]) (by decide)
  · intro hv
    exact api_null_case h out hsome "redirect_http_response_code"
      "redirectHttpResponseCode" (by decide) (by decide) (by decide)
      (by decide) (by rw [getAttr_redirect, hv])
  · intro hv
    exact api_value_case h out hsome "redirect_http_response_code"
      "redirectHttpResponseCode" (by decide) (by decide) (by decide)
      (by decide) _ _ (by rw [getAttr_redirect, hv]) (by decide)
  · intro hv
    exact api_value_case h out hsome "redirect_http_response_code"
      "redirectHttpResponseCode" (by decide) (by decide) (by decide)
      (by decide) _ _ (by rw [getAttr_redirect, hv]) (by decide)
  · intro hv
    exact api_value_case h out hsome "redirect_http_response_code"
      "redirectHttpResponseCode" (by decide) (by decide) (by decide)
      (by decide) _ _ (by rw [getAttr_redirect, hv]) (by decide)
  · intro hv
    exact api_value_case h out hsome "redirect_http_response_code"
      "redirectHttpResponseCode" (by decide) (by decide) (by decide)
      (by decide) _ _ (by rw [getAttr_redirect, hv]) (by decide)

/-- The raw mapping of the C3 witness: all four directly-mapped fields
set. -/
def c3Raw : RawMap :=
  [("url", .str "/"), ("script", .str "a"), ("secure", .str "always"),
   ("login", .str "admin"), ("auth_fail_action", .str "redirect"),
   ("redirect_http_response_code", .int 302)]

/-- The handler `from_yaml` builds for `c3Raw`. -/
def c3H : Handler :=
  { initHandler (.str "/") with
    script := .str "a"
    secure := .str "always"
    login := .str "admin"
    auth_fail_action := .str "redirect"
    redirect_http_response_code := .int 302 }

/-- The output `to_api_dict` produces for `c3H`. -/
def c3Out : ValueDict :=
  .cons (.str "urlRegex") (.str "/")
    (.cons (.str "securityLevel") (.str "SECURE_ALWAYS")
      (.cons (.str "login") (.str "LOGIN_ADMIN")
        (.cons (.str "authFailAction") (.str "AUTH_FAIL_ACTION_REDIRECT")
          (.cons (.str "redirectHttpResponseCode")
            (.str "REDIRECT_HTTP_RESPONSE_CODE_302")
            (.cons (.str "script")
              (.dict (.cons (.str "scriptPath") (.str "a") .nil)) .nil)))))

/-- Witness for C3: `c3_theorem` applied to a concrete validated handler
with all four directly-mapped fields set. -/
theorem c3_witness :
    c3Out.lookup (.str "securityLevel") = some (.str "SECURE_ALWAYS") ∧
    c3Out.lookup (.str "login") = some (.str "LOGIN_ADMIN") ∧
    c3Out.lookup (.str "authFailAction") =
      some (.str "AUTH_FAIL_ACTION_REDIRECT") ∧
    c3Out.lookup (.str "redirectHttpResponseCode") =
      some (.str "REDIRECT_HTTP_RESPONSE_CODE_302") := by
  obtain ⟨a1, a2, a3, a4, a5, a6, a7, a8, a9, a10, a11, a12, a13, a14, a15,
    a16⟩ := c3_theorem c3Raw c3H c3Out (by decide) (by decide)
  exact ⟨a4 (by decide), a8 (by decide), a10 (by decide), a14 (by decide)⟩

/-- The raw mapping of the C2 counterexample: `static_dir` set to the empty
string (a legal string value that passes validation). -/
def c2CexRaw : RawMap := [("url", .str "/"), ("static_dir", .str "")]

/-- The handler `from_yaml` builds for `c2CexRaw`. -/
def c2CexH : Handler := { initHandler (.str "/") with static_dir := .str "" }

/-- The output `to_api_dict` produces for `c2CexH`: because
`if self.static_dir:` tests Python truthiness and `""` is falsy, the
`static_files` branch runs, so `path` is `None` (the unset `static_files`)
and no `uploadPathRegex` is generated. -/
def c2CexOut : ValueDict :=
  .cons (.str "urlRegex") (.str "/")
    (.cons (.str "staticFiles")
      (.dict (.cons (.str "path") .null .nil)) .nil)

/-- C2 counterexample: a validated handler with `static_dir` set to the
empty string, whose `staticFiles` section has `path = None` (not `""`) and
no `uploadPathRegex` at all -- refuting the claim for the empty string. -/
theorem c2_counterexample :
    from_yaml c2CexRaw = .ok c2CexH ∧
    c2CexH.static_dir = .str "" ∧
    to_api_dict c2CexH = some c2CexOut ∧
    c2CexOut.lookup (.str "staticFiles") =
      some (.dict (.cons (.str "path") .null .nil)) ∧
    (ValueDict.cons (.str "path") .null .nil).lookup (.str "path") =
      some .null ∧
    (ValueDict.cons (.str "path") .null .nil).lookup
      (.str "uploadPathRegex") = none := by
  decide

/-- C2 (amended): for every validated handler whose `static_dir` is a
non-empty (truthy) string and whose `upload` is unset, the `staticFiles`
section has `path = static_dir` and
`uploadPathRegex = static_dir ++ "/.*"` (plain concatenation, even if
`static_dir` ends in a slash); when `static_dir` is the empty string the
`static_files` branch is taken instead (see the counterexample). -/
theorem c2_theorem (raw : RawMap) (h : Handler) (s : String)
    (hok : from_yaml raw = .ok h) (hsd : h.static_dir = .str s) (hs : s ≠ "")
    (hup : h.upload = .null) :
    ∃ out, to_api_dict h = some out ∧
      out.lookup (.str "staticFiles") = some (.dict (staticSection h)) ∧
      (staticSection h).lookup (.str "path") = some (.str s) ∧
      (staticSection h).lookup (.str "uploadPathRegex") =
        some (.str (s ++ "/.*")) := by
  obtain ⟨out, hsome⟩ := to_api_dict_total raw h hok
  have hsdef : static_defined h = true := by
    refine (static_defined_eq_true h).mpr (Or.inl ?_)
    rw [hsd]
    intro hq
    exact Value.noConfusion hq
  have hseed : staticSection h = applyStaticFields h STATIC_API_FIELDS
      (.cons (.str "path") (.str s)
        (.cons (.str "uploadPathRegex") (.str (s ++ "/.*")) .nil)) := by
    unfold staticSection
    rw [hsd]
    simp [truthy, hs, formatUpload]
  refine ⟨out, hsome, ?_, ?_, ?_⟩
  · obtain ⟨d, hd, hbranch⟩ := to_api_dict_destruct h out hsome
    rcases hbranch with ⟨_, rfl⟩ | ⟨hfalse, _⟩
    · exact ValueDict.lookup_insert_self d _ _
    · rw [hsdef] at hfalse
      exact Bool.noConfusion hfalse
  · rw [hseed, applyStaticFields_lookup_notmem STATIC_API_FIELDS h _ "path"
      (by decide)]
    simp [ValueDict.lookup]
  · rcases applyStaticFields_lookup_mem STATIC_API_FIELDS h
        (.cons (.str "path") (.str s)
          (.cons (.str "uploadPathRegex") (.str (s ++ "/.*")) .nil))
        "upload" "uploadPathRegex" (by decide) (by decide) with
      ⟨_, hl⟩ | ⟨hn, _⟩
    · rw [hseed, hl]
      have hne : (Value.str "path") ≠ (Value.str "uploadPathRegex") := by
        decide
      simp [ValueDict.lookup, hne]
    · rw [getAttr_upload] at hn
      exact absurd hup hn

/-- The handler of the C2 witness. -/
def c2WitH : Handler := { initHandler (.str "/") with static_dir := .str "st" }

/-- Witness for C2: `c2_theorem` applied to a concrete validated handler
with a non-empty `static_dir`. -/
theorem c2_witness :
    ∃ out, to_api_dict c2WitH = some out ∧
      out.lookup (.str "staticFiles") = some (.dict (staticSection c2WitH)) ∧
      (staticSection c2WitH).lookup (.str "path") = some (.str "st") ∧
      (staticSection c2WitH).lookup (.str "uploadPathRegex") =
        some (.str ("st" ++ "/.*")) :=
  c2_theorem [("url", .str "/"), ("static_dir", .str "st")] c2WitH "st"
    (by decide) (by decide) (by decide) (by decide)

/-- A set secondary static attribute appears in the static section under
its API name (any later loop iterations insert under different keys, so the
entry survives). -/
theorem staticSection_secondary (h : Handler) (attr api : String)
    (hmem : (attr, api) ∈ STATIC_API_FIELDS)
    (hne : getAttr h attr ≠ .null) :
    (staticSection h).lookup (.str api) = some (getAttr h attr) := by
  unfold staticSection
  rcases applyStaticFields_lookup_mem STATIC_API_FIELDS h
      (if truthy h.static_dir then
        .cons (.str "path") h.static_dir
          (.cons (.str "uploadPathRegex") (formatUpload h.static_dir) .nil)
      else .cons (.str "path") h.static_files .nil) attr api hmem
      (by decide) with ⟨hn, _⟩ | ⟨_, hl⟩
  · exact absurd hn hne
  · exact hl

/-- C8: the secondary static fields are applied after the static section is
seeded, so an explicit `upload` always determines `uploadPathRegex`
(overriding the `static_dir`-derived default), and every set secondary
field appears in the section under its mapped key. -/
theorem c8_theorem (raw : RawMap) (h : Handler) (out : ValueDict)
    (_hok : from_yaml raw = .ok h) (hsd : static_defined h = true)
    (hsome : to_api_dict h = some out) :
    out.lookup (.str "staticFiles") = some (.dict (staticSection h)) ∧
    (h.upload ≠ .null →
      (staticSection h).lookup (.str "uploadPathRegex") = some h.upload) ∧
    (h.http_headers ≠ .null →
      (staticSection h).lookup (.str "httpHeaders") = some h.http_headers) ∧
    (h.mime_type ≠ .null →
      (staticSection h).lookup (.str "mimeType") = some h.mime_type) ∧
    (h.expiration ≠ .null →
      (staticSection h).lookup (.str "expiration") = some h.expiration) ∧
    (h.application_readable ≠ .null →
      (staticSection h).lookup (.str "applicationReadable") =
        some h.application_readable) := by
  refine ⟨?_, ?_, ?_, ?_, ?_, ?_⟩
  · obtain ⟨d, hd, hbranch⟩ := to_api_dict_destruct h out hsome
    rcases hbranch with ⟨_, rfl⟩ | ⟨hfalse, _⟩
    · exact ValueDict.lookup_insert_self d _ _
    · rw [hsd] at hfalse
      exact Bool.noConfusion hfalse
  · intro hne
    have := staticSection_secondary h "upload" "uploadPathRegex" (by decide)
      (by rwa [getAttr_upload])
    rwa [getAttr_upload] at this
  · intro hne
    have := staticSection_secondary h "http_headers" "httpHeaders"
      (by decide) (by rwa [getAttr_http_headers])
    rwa [getAttr_http_headers] at this
  · intro hne
    have := staticSection_secondary h "mime_type" "mimeType" (by decide)
      (by rwa [getAttr_mime_type])
    rwa [getAttr_mime_type] at this
  · intro hne
    have := staticSection_secondary h "expiration" "expiration" (by decide)
      (by rwa [getAttr_expiration])
    rwa [getAttr_expiration] at this
  · intro hne
    have := staticSection_secondary h "application_readable"
      "applicationReadable" (by decide)
      (by rwa [getAttr_application_readable])
    rwa [getAttr_application_readable] at this

/-- The raw mapping of the C8 witness: `static_dir` and `upload` both set
(plus a `mime_type`). -/
def c8Raw : RawMap :=
  [("url", .str "/"), ("static_dir", .str "st"), ("upload", .str "up"),
   ("mime_type", .str "text/plain")]

/-- The handler `from_yaml` builds for `c8Raw`. -/
def c8H : Handler :=
  { initHandler (.str "/") with
    static_dir := .str "st"
    upload := .str "up"
    mime_type := .str "text/plain" }

/-- The output `to_api_dict` produces for `c8H`: the auto-generated
`uploadPathRegex = "st/.*"` is overwritten in place by the explicit
`upload`. -/
def c8Out : ValueDict :=
  .cons (.str "urlRegex") (.str "/")
    (.cons (.str "staticFiles")
      (.dict (.cons (.str "path") (.str "st")
        (.cons (.str "uploadPathRegex") (.str "up")
          (.cons (.str "mimeType") (.str "text/plain") .nil)))) .nil)

/-- Witness for C8: `c8_theorem` applied to a concrete validated handler
with both `static_dir` and `upload` set; `uploadPathRegex` is the explicit
`upload` value, not `"st/.*"`. -/
theorem c8_witness :
    c8Out.lookup (.str "staticFiles") = some (.dict (staticSection c8H)) ∧
    (staticSection c8H).lookup (.str "uploadPathRegex") = some (.str "up") ∧
    (staticSection c8H).lookup (.str "mimeType") = some (.str "text/plain") := by
  have H := c8_theorem c8Raw c8H c8Out (by decide) (by decide) (by decide)
  exact ⟨H.1, H.2.1 (by decide), H.2.2.2.1 (by decide)⟩

/-- C9: on a validated handler, `to_api_dict` has no failure path (every
`API_VALUES` lookup hits the table), and -- being a pure function of the
unchanged handler -- calling it twice yields structurally identical
output. -/
theorem c9_theorem (raw : RawMap) (h : Handler)
    (hok : from_yaml raw = .ok h) :
    (∃ out, to_api_dict h = some out) ∧
    to_api_dict h = to_api_dict h ∧
    (∀ out out', to_api_dict h = some out → to_api_dict h = some out' →
      out = out') := by
  refine ⟨to_api_dict_total raw h hok, rfl, ?_⟩
  intro out out' h1 h2
  rw [h1] at h2
  exact Option.some.inj h2

/-- Witness for C9 at a concrete validated handler. -/
theorem c9_witness :
    ∃ out, to_api_dict { initHandler (.str "/") with script := .str "a"} =
      some out :=
  (c9_theorem [("url", .str "/"), ("script", .str "a")]
    { initHandler (.str "/") with script := .str "a"} (by decide)).1

/-! ## The expiration grammar (C7)

The spec describes the accepted language as: one or more delta terms
separated by whitespace, each term one-or-more digits followed by an
optional unit in `dDhHmMsS`, with optional leading/trailing whitespace.
`DeltaTermL`, `DeltaSeq` and `ExpirationGrammar` state that language
directly, as the spec words it; `c7_theorem` proves it coincides with the
recursive-descent translation `expirationOk` of `EXPIRATION_RE`. -/

/-- One delta term, as the spec words it: one or more digits followed by an
optional unit character. -/
def DeltaTermL (t : List Char) : Prop :=
  ∃ ds u, t = ds ++ u ∧ ds ≠ [] ∧ (∀ c ∈ ds, isDigitChar c = true) ∧
    (u = [] ∨ ∃ c, u = [c] ∧ isUnitChar c = true)

/-- One or more delta terms separated by (one or more) whitespace
characters. -/
inductive DeltaSeq : List Char → Prop where
  | single : ∀ t, DeltaTermL t → DeltaSeq t
  | cons : ∀ t w rest, DeltaTermL t → w ≠ [] →
      (∀ c ∈ w, pySpace c = true) → DeltaSeq rest → DeltaSeq (t ++ (w ++ rest))

/-- The spec's expiration language: a delta sequence with optional leading
and trailing whitespace. -/
def ExpirationGrammar (s : String) : Prop :=
  ∃ w1 mid w2, (∀ c ∈ w1, pySpace c = true) ∧ (∀ c ∈ w2, pySpace c = true) ∧
    DeltaSeq mid ∧ s.data = w1 ++ (mid ++ w2)

theorem digit_not_space (c : Char) (h : isDigitChar c = true) :
    pySpace c = false := by
  simp only [isDigitChar, Bool.and_eq_true, decide_eq_true_eq] at h
  rw [Bool.eq_false_iff]
  intro hsp
  simp only [pySpace, Bool.or_eq_true, Bool.and_eq_true, decide_eq_true_eq,
    beq_iff_eq] at hsp
  omega

theorem space_not_digit (c : Char) (h : pySpace c = true) :
    isDigitChar c = false := by
  cases hd : isDigitChar c
  · rfl
  · rw [digit_not_space c hd] at h
    exact Bool.noConfusion h

theorem unit_not_space (c : Char) (h : isUnitChar c = true) :
    pySpace c = false := by
  simp only [isUnitChar, Bool.or_eq_true, beq_iff_eq] at h
  rcases h with ((((((rfl | rfl) | rfl) | rfl) | rfl) | rfl) | rfl) | rfl <;>
    rfl

theorem space_not_unit (c : Char) (h : pySpace c = true) :
    isUnitChar c = false := by
  cases hu : isUnitChar c
  · rfl
  · rw [unit_not_space c hu] at h
    exact Bool.noConfusion h

theorem unit_not_digit (c : Char) (h : isUnitChar c = true) :
    isDigitChar c = false := by
  simp only [isUnitChar, Bool.or_eq_true, beq_iff_eq] at h
  rcases h with ((((((rfl | rfl) | rfl) | rfl) | rfl) | rfl) | rfl) | rfl <;>
    rfl

theorem dropWhile_append_all {p : Char → Bool} :
    ∀ (xs ys : List Char), (∀ c ∈ xs, p c = true) →
      (xs ++ ys).dropWhile p = ys.dropWhile p
  | [], ys => fun _ => rfl
  | x :: xs, ys => fun hall => by
      rw [List.cons_append, List.dropWhile_cons,
        if_pos (hall x (List.mem_cons_self ..))]
      exact dropWhile_append_all xs ys
        (fun c hc => hall c (List.mem_cons_of_mem _ hc))

theorem dropWhile_append_stop {p : Char → Bool} (xs zs : List Char) (y : Char)
    (hall : ∀ c ∈ xs, p c = true) (hy : p y = false) :
    (xs ++ y :: zs).dropWhile p = y :: zs := by
  rw [dropWhile_append_all xs (y :: zs) hall, List.dropWhile_cons, hy]
  simp

theorem dropWhile_length_le (p : Char → Bool) (l : List Char) :
    (l.dropWhile p).length ≤ l.length :=
  List.IsSuffix.length_le (List.dropWhile_suffix p)

theorem parseDelta_length :
    ∀ (cs r : List Char), parseDelta cs = some r → r.length < cs.length
  | [], r => by simp [parseDelta]
  | c :: rest, r => fun h => by
      simp only [parseDelta] at h
      by_cases hd : isDigitChar c
      · rw [if_pos hd] at h
        split at h
        · simp only [Option.some.injEq] at h
          subst h
          simp
        · rename_i u rest' hget
          have hlen : (u :: rest').length ≤ rest.length := by
            rw [← hget]
            exact dropWhile_length_le isDigitChar rest
          simp only [List.length_cons] at hlen
          split at h <;>
            (simp only [Option.some.injEq] at h
             subst h
             simp only [List.length_cons]
             omega)
      · rw [if_neg hd] at h
        exact Option.noConfusion h

theorem parseDelta_sound :
    ∀ (cs r : List Char), parseDelta cs = some r →
      ∃ t, cs = t ++ r ∧ DeltaTermL t
  | [], r => by simp [parseDelta]
  | c :: rest, r => fun h => by
      simp only [parseDelta] at h
      by_cases hd : isDigitChar c
      · rw [if_pos hd] at h
        have hsplit : rest.takeWhile isDigitChar ++
            rest.dropWhile isDigitChar = rest :=
          List.takeWhile_append_dropWhile isDigitChar rest
        have htw : ∀ x ∈ rest.takeWhile isDigitChar, isDigitChar x = true :=
          fun x hx => List.mem_takeWhile_imp hx
        split at h
        · rename_i hget
          simp only [Option.some.injEq] at h
          subst h
          refine ⟨c :: rest, by simp, c :: rest, [], by simp, by simp, ?_,
            Or.inl rfl⟩
          intro x hx
          rcases List.mem_cons.mp hx with rfl | hx
          · exact hd
          · rw [hget, List.append_nil] at hsplit
            refine htw x ?_
            rw [hsplit]
            exact hx
        · rename_i u rest' hget
          rw [hget] at hsplit
          split at h
          · rename_i hu
            simp only [Option.some.injEq] at h
            subst h
            refine ⟨c :: (rest.takeWhile isDigitChar ++ [u]), ?_,
              c :: rest.takeWhile isDigitChar, [u], by simp, by simp, ?_,
              Or.inr ⟨u, rfl, hu⟩⟩
            · rw [List.cons_append, List.append_assoc, List.singleton_append,
                hsplit]
            · intro x hx
              rcases List.mem_cons.mp hx with rfl | hx
              · exact hd
              · exact htw x hx
          · simp only [Option.some.injEq] at h
            subst h
            refine ⟨c :: rest.takeWhile isDigitChar, ?_,
              c :: rest.takeWhile isDigitChar, [], by simp, by simp, ?_,
              Or.inl rfl⟩
            · rw [List.cons_append, hsplit]
            · intro x hx
              rcases List.mem_cons.mp hx with rfl | hx
              · exact hd
              · exact htw x hx
      · rw [if_neg hd] at h
        exact Option.noConfusion h

theorem parseDelta_complete (t tail : List Char) (ht : DeltaTermL t)
    (htail : tail = [] ∨ ∃ c cs', tail = c :: cs' ∧ pySpace c = true) :
    parseDelta (t ++ tail) = some tail := by
  obtain ⟨ds, u, rfl, hne, hds, hu⟩ := ht
  cases ds with
  | nil => exact absurd rfl hne
  | cons d ds' =>
    have hdd : isDigitChar d = true := hds d (List.mem_cons_self ..)
    have hds' : ∀ c ∈ ds', isDigitChar c = true :=
      fun c hc => hds c (List.mem_cons_of_mem _ hc)
    rcases hu with rfl | ⟨cu, rfl, hcu⟩
    · -- no unit character
      rw [List.append_nil]
      show parseDelta (d :: (ds' ++ tail)) = some tail
      simp only [parseDelta]
      rw [if_pos hdd]
      rcases htail with rfl | ⟨c, cs', rfl, hc⟩
      · rw [List.append_nil,
          List.dropWhile_eq_nil_iff.mpr (fun x hx => hds' x hx)]
      · rw [dropWhile_append_stop ds' cs' c hds'
          (by rw [space_not_digit c hc])]
        simp [space_not_unit c hc]
    · -- one unit character
      show parseDelta (d :: (ds' ++ [cu] ++ tail)) = some tail
      simp only [parseDelta]
      rw [if_pos hdd]
      rw [List.append_assoc, List.singleton_append,
        dropWhile_append_stop ds' tail cu hds' (unit_not_digit cu hcu)]
      simp [hcu]

theorem deltaTailF_allspace :
    ∀ (fuel : Nat) (w : List Char), (∀ c ∈ w, pySpace c = true) →
      w.length ≤ fuel → deltaTailF fuel w = true
  | 0, [], _, _ => rfl
  | _ + 1, [], _, _ => rfl
  | 0, c :: rest, _, hlen => absurd hlen (by simp)
  | fuel + 1, c :: rest, hall, _ => by
      simp only [deltaTailF]
      rw [if_pos (hall c (List.mem_cons_self ..))]
      have hnil : dropWs rest = [] :=
        List.dropWhile_eq_nil_iff.mpr
          (fun x hx => hall x (List.mem_cons_of_mem _ hx))
      rw [hnil]

theorem DeltaSeq_head (mid : List Char) (h : DeltaSeq mid) :
    ∃ d rest', mid = d :: rest' ∧ isDigitChar d = true := by
  induction h with
  | single t ht =>
    obtain ⟨ds, u, rfl, hne, hds, _⟩ := ht
    cases ds with
    | nil => exact absurd rfl hne
    | cons d ds' =>
      exact ⟨d, ds' ++ u, by simp, hds d (List.mem_cons_self ..)⟩
  | cons t w rest ht hwne hwsp hrest ih =>
    obtain ⟨ds, u, rfl, hne, hds, _⟩ := ht
    cases ds with
    | nil => exact absurd rfl hne
    | cons d ds' =>
      exact ⟨d, ds' ++ u ++ (w ++ rest), by simp,
        hds d (List.mem_cons_self ..)⟩

theorem seqComplete (mid : List Char) (hseq : DeltaSeq mid) :
    ∀ (w2 : List Char), (∀ c ∈ w2, pySpace c = true) →
      ∃ r, parseDelta (mid ++ w2) = some r ∧
        ∀ fuel, r.length ≤ fuel → deltaTailF fuel r = true := by
  induction hseq with
  | single t ht =>
    intro w2 hw2
    refine ⟨w2, parseDelta_complete t w2 ht ?_, fun fuel hf =>
      deltaTailF_allspace fuel w2 hw2 hf⟩
    cases w2 with
    | nil => exact Or.inl rfl
    | cons c cs' => exact Or.inr ⟨c, cs', rfl, hw2 c (List.mem_cons_self ..)⟩
  | cons t w rest ht hwne hwsp hrest ih =>
    intro w2 hw2
    cases w with
    | nil => exact absurd rfl hwne
    | cons cw w' =>
      have hcw : pySpace cw = true := hwsp cw (List.mem_cons_self ..)
      have hw' : ∀ c ∈ w', pySpace c = true :=
        fun c hc => hwsp c (List.mem_cons_of_mem _ hc)
      obtain ⟨r2, hp2, ht2⟩ := ih w2 hw2
      obtain ⟨d, rest0, hrest_eq, hd⟩ := DeltaSeq_head rest hrest
      have hassoc : (t ++ ((cw :: w') ++ rest)) ++ w2 =
          t ++ (cw :: (w' ++ (rest ++ w2))) := by
        simp [List.append_assoc]
      refine ⟨cw :: (w' ++ (rest ++ w2)), ?_, ?_⟩
      · rw [hassoc]
        exact parseDelta_complete t (cw :: (w' ++ (rest ++ w2))) ht
          (Or.inr ⟨cw, _, rfl, hcw⟩)
      · intro fuel hf
        cases fuel with
        | zero => simp at hf
        | succ f =>
          simp only [deltaTailF]
          rw [if_pos hcw]
          have hdw : dropWs (w' ++ (rest ++ w2)) = rest ++ w2 := by
            unfold dropWs
            rw [dropWhile_append_all w' _ hw', hrest_eq, List.cons_append,
              List.dropWhile_cons, digit_not_space d hd]
            simp
          rw [hdw, hrest_eq, List.cons_append]
          rw [hrest_eq, List.cons_append] at hp2
          simp only [hp2]
          apply ht2
          have hr2len := parseDelta_length _ _ hp2
          rw [hrest_eq] at hf
          simp only [List.length_cons, List.length_append] at hf hr2len ⊢
          omega

theorem runSound :
    ∀ (fuel : Nat) (cs r : List Char), parseDelta cs = some r →
      deltaTailF fuel r = true →
      ∃ mid w2, DeltaSeq mid ∧ (∀ c ∈ w2, pySpace c = true) ∧
        cs = mid ++ w2
  | _fuel, cs, [] => fun hp _ => by
      obtain ⟨t, hcs, ht⟩ := parseDelta_sound cs [] hp
      exact ⟨t, [], DeltaSeq.single t ht, by simp, by simpa using hcs⟩
  | 0, cs, c :: rest => fun _ htail => by
      simp [deltaTailF] at htail
  | fuel + 1, cs, c :: rest => fun hp htail => by
      obtain ⟨t, hcs, ht⟩ := parseDelta_sound cs (c :: rest) hp
      simp only [deltaTailF] at htail
      by_cases hsp : pySpace c
      · rw [if_pos hsp] at htail
        split at htail
        · rename_i hdw
          have hallsp : ∀ x ∈ rest, pySpace x = true :=
            List.dropWhile_eq_nil_iff.mp hdw
          refine ⟨t, c :: rest, DeltaSeq.single t ht, ?_, hcs⟩
          intro x hx
          rcases List.mem_cons.mp hx with rfl | hx
          · exact hsp
          · exact hallsp x hx
        · rename_i d ds hdw
          split at htail
          · rename_i r2 hpd
            obtain ⟨mid2, w2, hseq2, hw2, heq2⟩ :=
              runSound fuel (d :: ds) r2 hpd htail
            refine ⟨t ++ ((c :: rest.takeWhile pySpace) ++ mid2), w2,
              DeltaSeq.cons t (c :: rest.takeWhile pySpace) mid2 ht
                (by simp) ?_ hseq2, hw2, ?_⟩
            · intro x hx
              rcases List.mem_cons.mp hx with rfl | hx
              · exact hsp
              · exact List.mem_takeWhile_imp hx
            · have hrest : rest = rest.takeWhile pySpace ++ (mid2 ++ w2) := by
                conv_lhs =>
                  rw [← List.takeWhile_append_dropWhile pySpace rest]
                have hds : rest.dropWhile pySpace = mid2 ++ w2 := by
                  have hdw' : rest.dropWhile pySpace = d :: ds := hdw
                  exact hdw'.trans heq2
                rw [hds]
              rw [hcs]
              conv_lhs => rw [hrest]
              simp [List.append_assoc]
          · exact Bool.noConfusion htail
      · rw [if_neg hsp] at htail
        exact Bool.noConfusion htail

theorem expirationOk_sound (s : String) (h : expirationOk s = true) :
    ExpirationGrammar s := by
  unfold expirationOk at h
  cases hp : parseDelta (dropWs s.data) with
  | none =>
    rw [hp] at h
    exact Bool.noConfusion h
  | some r =>
    rw [hp] at h
    obtain ⟨mid, w2, hseq, hw2, heq⟩ := runSound r.length (dropWs s.data) r
      hp h
    refine ⟨s.data.takeWhile pySpace, mid, w2,
      fun c hc => List.mem_takeWhile_imp hc, hw2, hseq, ?_⟩
    conv_lhs => rw [← List.takeWhile_append_dropWhile pySpace s.data]
    have hds : s.data.dropWhile pySpace = mid ++ w2 := heq
    rw [hds]

theorem expirationOk_complete (s : String) (hg : ExpirationGrammar s) :
    expirationOk s = true := by
  obtain ⟨w1, mid, w2, hw1, hw2, hseq, heq⟩ := hg
  obtain ⟨d, rest', hmid, hd⟩ := DeltaSeq_head mid hseq
  have hdw : dropWs s.data = mid ++ w2 := by
    unfold dropWs
    rw [heq, dropWhile_append_all w1 _ hw1, hmid, List.cons_append,
      List.dropWhile_cons, digit_not_space d hd]
    simp
  obtain ⟨r, hp, htail⟩ := seqComplete mid hseq w2 hw2
  unfold expirationOk
  rw [hdw, hp]
  exact htail r.length le_rfl

/-- C7: the expiration predicate accepts exactly the strings of the spec's
grammar (one or more digit-plus-optional-unit terms separated by
whitespace, with optional surrounding whitespace); the listed examples are
accepted, and the malformed ones are rejected by `from_yaml` with the
invalid-expiration ConfigError. -/
theorem c7_theorem :
    (∀ s : String, expirationOk s = true ↔ ExpirationGrammar s) ∧
    expirationOk "30d" = true ∧
    expirationOk "1d 2h 3m" = true ∧
    expirationOk "45" = true ∧
    expirationOk "10 20M" = true ∧
    from_yaml [("url", .str "/"), ("script", .str "x"),
      ("expiration", .str "abc")] =
      .error (.config (.invalidValue "expiration")) ∧
    from_yaml [("url", .str "/"), ("script", .str "x"),
      ("expiration", .str "30x")] =
      .error (.config (.invalidValue "expiration")) ∧
    from_yaml [("url", .str "/"), ("script", .str "x"),
      ("expiration", .str "")] =
      .error (.config (.invalidValue "expiration")) :=
  ⟨fun s => ⟨expirationOk_sound s, expirationOk_complete s⟩, by decide,
    by decide, by decide, by decide, by decide, by decide, by decide⟩
